import Mathlib

/-!
Verification development for the TDS LLM code-deployment orchestrator.

The Python sources (src/app.py, src/tasks.py, src/config.py, src/schemas.py,
src/utils.py, src/services/llm_generator.py) are shallowly embedded below:
Python strings are modelled as `List Char` (`PyStr`), byte strings as
`List Nat` with every byte below 256, dictionaries as association lists with
Python's insertion-order/overwrite semantics, and fallible code as `Except`.
External effects (the queue, the Redis state store, HTTP, the LLM provider,
uuid generation, the clock) are supplied by explicit oracle records so that
the worker task is a pure function of its payload and environment.
-/

/-- Python strings are modelled as lists of unicode scalar values (`Char`). -/
abbrev PyStr := List Char

/-- Shorthand turning a Lean string literal into the `PyStr` model. -/
def pstr (s : String) : PyStr := s.toList

/-- Python byte strings are modelled as lists of naturals below 256. -/
abbrev PyBytes := List Nat

/-- Concatenation of the images of a list under a list-valued function
(used for NFKD expansion and UTF-8 encoding). -/
def concatMap (f : α → List β) : List α → List β
  | [] => []
  | a :: as => f a ++ concatMap f as

/-- Model of Python `str.lower` on one character (exact on ASCII, which is the
only alphabet reaching `lower()` in `slugify` after the ASCII filter). -/
def pyLowerChar (c : Char) : Char :=
  if 65 ≤ c.toNat ∧ c.toNat ≤ 90 then Char.ofNat (c.toNat + 32) else c

/-- Model of Python `str.lower`. -/
def pyLower (s : PyStr) : PyStr := s.map pyLowerChar

/-- ASCII whitespace recognised by Python `str.strip()`.  (Python also strips
some non-ASCII unicode spaces; no theorem below depends on those.) -/
def isPyWsChar (c : Char) : Bool :=
  c.toNat == 9 || c.toNat == 10 || c.toNat == 11 || c.toNat == 12 ||
  c.toNat == 13 || c.toNat == 32

/-- Model of Python `str.lstrip(chars)`: drop leading characters in the set. -/
def pyLstrip (p : Char → Bool) (s : PyStr) : PyStr := s.dropWhile p

/-- Model of Python `str.rstrip(chars)`: drop trailing characters in the set. -/
def pyRstrip (p : Char → Bool) (s : PyStr) : PyStr := (s.reverse.dropWhile p).reverse

/-- Model of Python `str.strip(chars)`. -/
def pyStrip (p : Char → Bool) (s : PyStr) : PyStr := pyRstrip p (pyLstrip p s)

/-- Modelled stdlib boundary: `unicodedata.normalize("NFKD", c)` for a single
character.  NFKD is the identity on ASCII, the only fact any theorem below
uses; the non-ASCII decomposition table is not reproduced (every non-ASCII
character is discarded by the ASCII filter applied right after it in
`slugify`, so all theorems are independent of that branch). -/
def nfkdChar (c : Char) : List Char := [c]

/-- Predicate for ASCII code points, as kept by `.encode("ascii", "ignore")`. -/
def isAsciiChar (c : Char) : Bool := c.toNat < 128

/-- Model of `unicodedata.normalize("NFKD", s).encode("ascii", "ignore").decode("ascii")`
in `utils.slugify`: decompose, then drop every non-ASCII character. -/
def nfkdAsciiIgnore (s : PyStr) : PyStr := (concatMap nfkdChar s).filter isAsciiChar

/-- Characters matched by `[a-z0-9]` in `utils.slugify`. -/
def isSlugChar (c : Char) : Bool :=
  (97 ≤ c.toNat && c.toNat ≤ 122) || (48 ≤ c.toNat && c.toNat ≤ 57)

/-- Helper for `subNonAlnum`: the flag records whether the scanner is inside a
run of non-`[a-z0-9]` characters whose hyphen has already been emitted. -/
def subNonAlnumAux : Bool → PyStr → PyStr
  | _, [] => []
  | inRun, c :: rest =>
    if isSlugChar c then c :: subNonAlnumAux false rest
    else if inRun then subNonAlnumAux true rest
    else '-' :: subNonAlnumAux true rest

/-- Model of `re.sub(r"[^a-z0-9]+", "-", s)` in `utils.slugify`: collapse each
maximal run of characters outside `[a-z0-9]` to a single hyphen. -/
def subNonAlnum (s : PyStr) : PyStr := subNonAlnumAux false s

/-- First stage of `utils.slugify`: NFKD-normalise, drop non-ASCII, lowercase. -/
def slugNormalized (value : PyStr) : PyStr := pyLower (nfkdAsciiIgnore value)

/-- Second stage of `utils.slugify`: collapse non-alphanumeric runs to hyphens
and strip hyphens at both ends. -/
def slugStripped (value : PyStr) : PyStr :=
  pyStrip (fun c => c == '-') (subNonAlnum (slugNormalized value))

/-- Model of `utils.slugify` (src/utils.py): NFKD-normalise and drop non-ASCII,
lowercase, collapse runs of non-`[a-z0-9]` characters to single hyphens, strip
hyphens at both ends, substitute "generated-app" for an empty result, and
truncate to `maxLength` characters (63 at every call site). -/
def slugify (value : PyStr) (maxLength : Nat) : PyStr :=
  (if (slugStripped value).isEmpty then pstr "generated-app" else slugStripped value).take
    maxLength

-- Facts about the building blocks of `slugify`.

theorem slugChar_ne_hyphen {c : Char} (h : isSlugChar c = true) : c ≠ '-' := by
  intro hc
  subst hc
  simp [isSlugChar] at h

theorem subNonAlnumAux_chars : ∀ (b : Bool) (s : PyStr) (c : Char),
    c ∈ subNonAlnumAux b s → isSlugChar c = true ∨ c = '-'
  | _, [], c => by simp [subNonAlnumAux]
  | b, d :: rest, c => by
    by_cases hd : isSlugChar d
    · simp only [subNonAlnumAux, hd, if_true, List.mem_cons]
      rintro (rfl | h)
      · exact Or.inl hd
      · exact subNonAlnumAux_chars false rest c h
    · cases b with
      | true =>
        simp only [subNonAlnumAux, hd, if_false, if_true]
        exact fun h => subNonAlnumAux_chars true rest c h
      | false =>
        simp only [subNonAlnumAux, hd, if_false, Bool.false_eq_true, List.mem_cons]
        rintro (rfl | h)
        · exact Or.inr rfl
        · exact subNonAlnumAux_chars true rest c h

theorem subNonAlnumAux_true_head : ∀ (s : PyStr) (c : Char) (t : PyStr),
    subNonAlnumAux true s = c :: t → isSlugChar c = true
  | [], c, t => by simp [subNonAlnumAux]
  | d :: rest, c, t => by
    by_cases hd : isSlugChar d
    · simp only [subNonAlnumAux, hd, if_true]
      intro h
      cases h
      exact hd
    · simp only [subNonAlnumAux, hd, if_false, if_true]
      exact subNonAlnumAux_true_head rest c t

theorem subNonAlnumAux_nodd : ∀ (b : Bool) (s : PyStr),
    ¬ (pstr "--" <:+: subNonAlnumAux b s)
  | _, [] => by simp [subNonAlnumAux, pstr]
  | b, d :: rest => by
    by_cases hd : isSlugChar d
    · simp only [subNonAlnumAux, hd, if_true]
      intro h
      rcases List.infix_cons_iff.mp h with h | h
      · rcases List.cons_prefix_cons.mp h with ⟨h1, _⟩
        exact slugChar_ne_hyphen hd h1.symm
      · exact subNonAlnumAux_nodd false rest h
    · cases b with
      | true =>
        simp only [subNonAlnumAux, hd, if_false, if_true]
        exact subNonAlnumAux_nodd true rest
      | false =>
        simp only [subNonAlnumAux, hd, if_false]
        intro h
        rcases List.infix_cons_iff.mp h with h | h
        · rcases List.cons_prefix_cons.mp h with ⟨_, h2⟩
          rcases h2 with ⟨t2, ht2⟩
          rcases hh : subNonAlnumAux true rest with _ | ⟨e, t3⟩
          · rw [hh] at ht2
            simp at ht2
          · rw [hh] at ht2
            have he : e = '-' := by
              have := ht2
              simp only [List.singleton_append, List.cons.injEq] at this
              exact this.1.symm
            have := subNonAlnumAux_true_head rest e t3 hh
            exact slugChar_ne_hyphen this he
        · exact subNonAlnumAux_nodd true rest h

theorem subNonAlnumAux_id : ∀ (s : PyStr),
    (∀ c ∈ s, isSlugChar c = true ∨ c = '-') → ¬ (pstr "--" <:+: s) →
    subNonAlnumAux false s = s ∧ ((∀ t, s ≠ '-' :: t) → subNonAlnumAux true s = s)
  | [] => fun _ _ => ⟨rfl, fun _ => rfl⟩
  | d :: rest => by
    intro hchars hnodd
    have hrestchars : ∀ c ∈ rest, isSlugChar c = true ∨ c = '-' :=
      fun c hc => hchars c (List.mem_cons_of_mem d hc)
    have hrestnodd : ¬ (pstr "--" <:+: rest) :=
      fun h => hnodd (h.trans (List.suffix_cons d rest).isInfix)
    have IH := subNonAlnumAux_id rest hrestchars hrestnodd
    rcases hchars d (List.mem_cons_self d rest) with hd | hd
    · constructor
      · simp only [subNonAlnumAux, hd, if_true]
        rw [IH.1]
      · intro _
        simp only [subNonAlnumAux, hd, if_true]
        rw [IH.1]
    · subst hd
      have hdslug : isSlugChar '-' = false := by decide
      constructor
      · simp only [subNonAlnumAux, hdslug, if_false, Bool.false_eq_true]
        have hresthead : ∀ t, rest ≠ '-' :: t := by
          intro t ht
          subst ht
          exact hnodd ⟨[], t, rfl⟩
        rw [IH.2 hresthead]
      · intro hhead
        exact absurd rfl (hhead rest)

theorem dropWhile_id_of_head (p : Char → Bool) (s : PyStr)
    (h : ∀ c, s.head? = some c → p c = false) : s.dropWhile p = s := by
  cases s with
  | nil => rfl
  | cons c t =>
    rw [List.dropWhile_cons, if_neg]
    simp [h c rfl]

theorem pyRstrip_isPre (p : Char → Bool) (s : PyStr) : pyRstrip p s <+: s := by
  unfold pyRstrip
  rw [← List.reverse_suffix]
  simp only [List.reverse_reverse]
  exact List.dropWhile_suffix p

theorem pyRstrip_head (p : Char → Bool) (s : PyStr) (c : Char) (t : PyStr)
    (h : pyRstrip p s = c :: t) : ∃ t2, s = c :: t2 := by
  rcases pyRstrip_isPre p s with ⟨r, hr⟩
  rw [h] at hr
  exact ⟨t ++ r, by rw [← hr]; simp⟩

theorem pyRstrip_id (p : Char → Bool) (s : PyStr)
    (hlast : ∀ c, s.getLast? = some c → p c = false) : pyRstrip p s = s := by
  unfold pyRstrip
  rw [dropWhile_id_of_head p s.reverse, List.reverse_reverse]
  intro c hc
  exact hlast c (by rwa [List.head?_reverse] at hc)

theorem dropWhile_head_false (p : Char → Bool) : ∀ (s : PyStr) (c : Char) (t : PyStr),
    s.dropWhile p = c :: t → p c = false
  | [], c, t => by simp [List.dropWhile]
  | d :: rest, c, t => by
    by_cases hp : p d
    · rw [List.dropWhile_cons, if_pos (by simp [hp])]
      exact dropWhile_head_false p rest c t
    · rw [List.dropWhile_cons, if_neg (by simp [hp])]
      intro h
      rw [← ((List.cons.injEq ..).mp h).1]
      simpa using hp

theorem concatMap_nfkd_id : ∀ s : PyStr, concatMap nfkdChar s = s
  | [] => rfl
  | c :: rest => by simp [concatMap, nfkdChar, concatMap_nfkd_id rest]

theorem nfkdAsciiIgnore_ascii_id (s : PyStr) (h : ∀ c ∈ s, isAsciiChar c = true) :
    nfkdAsciiIgnore s = s := by
  unfold nfkdAsciiIgnore
  rw [concatMap_nfkd_id, List.filter_eq_self.mpr h]

theorem slug_or_hyphen_ascii {c : Char} (h : isSlugChar c = true ∨ c = '-') :
    isAsciiChar c = true := by
  rcases h with h | h
  · simp only [isSlugChar, Bool.or_eq_true, Bool.and_eq_true, decide_eq_true_eq] at h
    simp only [isAsciiChar, decide_eq_true_eq]
    rcases h with ⟨h1, h2⟩ | ⟨h1, h2⟩ <;> omega
  · subst h
    decide

theorem slug_or_hyphen_lower_fixed {c : Char} (h : isSlugChar c = true ∨ c = '-') :
    pyLowerChar c = c := by
  rcases h with h | h
  · simp only [isSlugChar, Bool.or_eq_true, Bool.and_eq_true, decide_eq_true_eq] at h
    unfold pyLowerChar
    rw [if_neg]
    rcases h with ⟨h1, h2⟩ | ⟨h1, h2⟩ <;> omega
  · subst h
    decide

theorem pyLower_fixed (s : PyStr) (h : ∀ c ∈ s, pyLowerChar c = c) : pyLower s = s := by
  unfold pyLower
  induction s with
  | nil => rfl
  | cons c rest ih =>
    simp only [List.map_cons]
    rw [h c (List.mem_cons_self c rest), ih (fun d hd => h d (List.mem_cons_of_mem c hd))]

theorem slugStripped_infix_sub (x : PyStr) :
    slugStripped x <:+: subNonAlnum (slugNormalized x) := by
  unfold slugStripped pyStrip
  exact (pyRstrip_isPre _ _).isInfix.trans (List.dropWhile_suffix _).isInfix

theorem slugStripped_head (x : PyStr) : ∀ t, slugStripped x ≠ '-' :: t := by
  intro t ht
  rcases pyRstrip_head _ _ _ _ ht with ⟨t2, ht2⟩
  have := dropWhile_head_false (fun c => c == '-') (subNonAlnum (slugNormalized x)) '-' t2 ht2
  simp at this

theorem slugify_props (x : PyStr) :
    (∀ c ∈ slugify x 63, isSlugChar c = true ∨ c = '-') ∧
    ¬ (pstr "--" <:+: slugify x 63) ∧
    slugify x 63 ≠ [] ∧
    (∀ t, slugify x 63 ≠ '-' :: t) ∧
    (slugify x 63).length ≤ 63 := by
  have hchars2 : ∀ c ∈ slugStripped x, isSlugChar c = true ∨ c = '-' :=
    fun c hc => subNonAlnumAux_chars false (slugNormalized x) c
      ((slugStripped_infix_sub x).subset hc)
  have hnodd2 : ¬ (pstr "--" <:+: slugStripped x) :=
    fun h => subNonAlnumAux_nodd false (slugNormalized x) (h.trans (slugStripped_infix_sub x))
  unfold slugify
  by_cases he : (slugStripped x).isEmpty
  · rw [if_pos he]
    refine ⟨by decide, by decide, by decide, ?_, by decide⟩
    intro t ht
    have hh : List.head? (List.take 63 (pstr "generated-app")) = some '-' := by
      rw [ht]
      rfl
    exact absurd hh (by decide)
  · rw [if_neg he]
    have hne : slugStripped x ≠ [] := by
      intro h
      rw [h] at he
      exact he rfl
    refine ⟨?_, ?_, ?_, ?_, ?_⟩
    · exact fun c hc => hchars2 c ((List.take_prefix 63 _).subset hc)
    · exact fun h => hnodd2 (h.trans (List.take_prefix 63 _).isInfix)
    · cases hs : slugStripped x with
      | nil => exact absurd hs hne
      | cons c t => simp [hs]
    · intro t ht
      cases hs : slugStripped x with
      | nil => exact absurd hs hne
      | cons c t2 =>
        rw [hs] at ht
        simp only [List.take_succ_cons, List.cons.injEq] at ht
        exact slugStripped_head x t2 (by rw [hs, ht.1])
    · exact List.length_take_le 63 _

theorem slugify_idem_aux (x : PyStr) (h : (slugify x 63).getLast? ≠ some '-') :
    slugify (slugify x 63) 63 = slugify x 63 := by
  obtain ⟨hchars, hnodd, hne, hhead, hlen⟩ := slugify_props x
  revert hchars hnodd hne hhead hlen h
  generalize slugify x 63 = s
  intro h hchars hnodd hne hhead hlen
  have h1 : nfkdAsciiIgnore s = s :=
    nfkdAsciiIgnore_ascii_id _ (fun c hc => slug_or_hyphen_ascii (hchars c hc))
  have h2 : pyLower s = s :=
    pyLower_fixed _ (fun c hc => slug_or_hyphen_lower_fixed (hchars c hc))
  have h3 : subNonAlnum s = s :=
    (subNonAlnumAux_id _ hchars hnodd).1
  have h4 : pyLstrip (fun c => c == '-') s = s := by
    apply dropWhile_id_of_head
    intro c hc
    cases hs : s with
    | nil => rw [hs] at hc; cases hc
    | cons d t =>
      rw [hs] at hc
      simp only [List.head?_cons, Option.some.injEq] at hc
      have hdne : d ≠ '-' := fun hcd => hhead t (by rw [hs, hcd])
      rw [← hc]
      simpa using hdne
  have h5 : pyRstrip (fun c => c == '-') s = s := by
    apply pyRstrip_id
    intro c hc
    have hcne : c ≠ '-' := by
      intro hcd
      rw [hcd] at hc
      exact h hc
    simpa using hcne
  have h6 : slugStripped s = s := by
    unfold slugStripped slugNormalized pyStrip
    rw [h1, h2, h3, h4, h5]
  unfold slugify
  rw [h6, if_neg (by simp [List.isEmpty_iff, hne]), List.take_of_length_le hlen]

theorem subNonAlnumAux_all_nonslug : ∀ s : PyStr, (∀ c ∈ s, isSlugChar c = false) →
    subNonAlnumAux true s = [] ∧
    subNonAlnumAux false s = (if s.isEmpty then [] else ['-'])
  | [] => fun _ => ⟨rfl, rfl⟩
  | d :: rest => by
    intro h
    have hd : isSlugChar d = false := h d (List.mem_cons_self d rest)
    have IH := subNonAlnumAux_all_nonslug rest (fun c hc => h c (List.mem_cons_of_mem d hc))
    constructor
    · simp only [subNonAlnumAux, hd, Bool.false_eq_true, if_false, if_true]
      exact IH.1
    · simp only [subNonAlnumAux, hd, Bool.false_eq_true, if_false, List.isEmpty_cons]
      rw [IH.1]

theorem slugify_all_punct (x : PyStr)
    (h : ∀ c ∈ x, isAsciiChar c = true ∧ isSlugChar (pyLowerChar c) = false) :
    slugify x 63 = pstr "generated-app" := by
  have h1 : nfkdAsciiIgnore x = x := nfkdAsciiIgnore_ascii_id x (fun c hc => (h c hc).1)
  have h2 : ∀ c ∈ pyLower x, isSlugChar c = false := by
    intro c hc
    rcases List.mem_map.mp hc with ⟨d, hd, rfl⟩
    exact (h d hd).2
  have h3 := (subNonAlnumAux_all_nonslug (pyLower x) h2).2
  have h4 : slugStripped x = [] := by
    unfold slugStripped slugNormalized subNonAlnum
    rw [h1, h3]
    split <;> rfl
  unfold slugify
  rw [h4]
  rfl

/-- Claim C8, counterexample: `slugify` is not idempotent for every string.
Truncation to 63 characters can cut immediately after a hyphen; the second
application then strips that trailing hyphen.  Witness: 62 copies of "a"
followed by "-b" slugifies to 62 "a"s plus a trailing hyphen, which a second
`slugify` shortens to just the 62 "a"s. -/
theorem C8_slugify_counterexample :
    slugify (slugify (List.replicate 62 'a' ++ pstr "-b") 63) 63 ≠
      slugify (List.replicate 62 'a' ++ pstr "-b") 63 := by decide

/-- Claim C8, amended: `slugify(slugify(x)) = slugify(x)` holds for every `x`
whose slug does not end in a hyphen (the only failures are inputs whose
63-character truncation cuts right after a hyphen); slugify of an empty or
all-punctuation string is exactly "generated-app"; and every slug consists of
lowercase ASCII `[a-z0-9]` and single (never doubled) hyphens, does not start
with a hyphen, and has length at most 63. -/
theorem C8_slugify_amended :
    (∀ x : PyStr, (slugify x 63).getLast? ≠ some '-' →
      slugify (slugify x 63) 63 = slugify x 63) ∧
    slugify [] 63 = pstr "generated-app" ∧
    (∀ x : PyStr, (∀ c ∈ x, isAsciiChar c = true ∧ isSlugChar (pyLowerChar c) = false) →
      slugify x 63 = pstr "generated-app") ∧
    (∀ x : PyStr,
      (∀ c ∈ slugify x 63, isSlugChar c = true ∨ c = '-') ∧
      ¬ (pstr "--" <:+: slugify x 63) ∧
      (∀ t, slugify x 63 ≠ '-' :: t) ∧
      (slugify x 63).length ≤ 63) := by
  refine ⟨slugify_idem_aux, by decide, slugify_all_punct, ?_⟩
  intro x
  obtain ⟨h1, h2, _, h4, h5⟩ := slugify_props x
  exact ⟨h1, h2, h4, h5⟩

/-- Claim C8, witness: the amended theorem applied at concrete inputs — the
idempotence branch at "Hello, World!" and the all-punctuation branch at "!!!". -/
theorem C8_slugify_amended_witness :
    slugify (slugify (pstr "Hello, World!") 63) 63 = slugify (pstr "Hello, World!") 63 ∧
    slugify (pstr "!!!") 63 = pstr "generated-app" :=
  ⟨C8_slugify_amended.1 (pstr "Hello, World!") (by decide),
   C8_slugify_amended.2.2.1 (pstr "!!!") (by decide)⟩

-- Model of the LLM generator's path sanitiser (src/services/llm_generator.py).

/-- Model of Python `s.split(sep)` for a single-character separator: always
returns at least one (possibly empty) component. -/
def splitOnChar (sep : Char) : PyStr → List PyStr
  | [] => [[]]
  | c :: rest =>
    if c == sep then [] :: splitOnChar sep rest
    else (c :: (splitOnChar sep rest).headD []) :: (splitOnChar sep rest).tail

/-- Errors raised as `LLMGenerationError` inside the LLM generator; each
constructor corresponds to one `raise` site, carrying the data interpolated
into the Python message. -/
inductive LLMGenerationError where
  | emptyPath : LLMGenerationError
  | unsafePath (path : PyStr) : LLMGenerationError
  | responseNotJson : LLMGenerationError
  | noFiles : LLMGenerationError
  | entryNotObject : LLMGenerationError
  | missingPath : LLMGenerationError
  | missingContent (path : PyStr) : LLMGenerationError
  | badBase64 (path : PyStr) : LLMGenerationError
  | fileTooLarge (path : PyStr) : LLMGenerationError
deriving DecidableEq

/-- Characters stripped from the front of a candidate path by
`candidate.lstrip("./")`. -/
def dotSlash (c : Char) : Bool := c == '.' || c == '/'

/-- Model of `pathlib.PurePosixPath(s).parts` for the non-absolute strings the
sanitiser builds (leading "/" characters are stripped first): split on "/",
then drop empty and "." components, as pathlib's normalisation does. -/
def posixParts (s : PyStr) : List PyStr :=
  (splitOnChar '/' s).filter (fun part => !(part.isEmpty) && !(part == pstr "."))

/-- Joining a list of components with a separator character. -/
def joinSep (sep : Char) : List PyStr → PyStr
  | [] => []
  | [p] => p
  | p :: rest => p ++ sep :: joinSep sep rest

/-- Model of `PurePosixPath(s).as_posix()` for non-absolute `s`: the normalised
components joined with "/", or "." when no component remains. -/
def posixAsPosix (s : PyStr) : PyStr :=
  if (posixParts s).isEmpty then pstr "." else joinSep '/' (posixParts s)

/-- Model of `services/llm_generator._sanitise_path`: strip surrounding
whitespace, strip every leading "." and "/" character (Python's
`lstrip("./")`), error on an empty remainder, error on any remaining ".." or
empty path component (pathlib never produces an empty component, so only ".."
can fire), and return the normalised path. -/
def sanitisePath (path : PyStr) : Except LLMGenerationError PyStr :=
  let candidate := pyLstrip dotSlash (pyStrip isPyWsChar path)
  if candidate.isEmpty then .error .emptyPath
  else if (posixParts candidate).any (fun part => part == pstr ".." || part.isEmpty) then
    .error (.unsafePath path)
  else .ok (posixAsPosix candidate)

theorem splitOnChar_ne_nil (sep : Char) : ∀ s : PyStr, splitOnChar sep s ≠ []
  | [] => by simp [splitOnChar]
  | c :: rest => by
    simp only [splitOnChar]
    split <;> simp

theorem splitOnChar_no_sep (sep : Char) : ∀ (s : PyStr) (p : PyStr),
    p ∈ splitOnChar sep s → sep ∉ p
  | [], p => by
    intro hp
    simp [splitOnChar] at hp
    simp [hp]
  | c :: rest, p => by
    rcases h : splitOnChar sep rest with _ | ⟨cur, done⟩
    · exact absurd h (splitOnChar_ne_nil sep rest)
    · have hcur : sep ∉ cur :=
        splitOnChar_no_sep sep rest cur (h ▸ List.mem_cons_self cur done)
      have hdone : ∀ q ∈ done, sep ∉ q :=
        fun q hq => splitOnChar_no_sep sep rest q (h ▸ List.mem_cons_of_mem cur hq)
      by_cases hc : c == sep
      · simp only [splitOnChar, hc, if_true, h, List.mem_cons]
        rintro (rfl | rfl | hp)
        · simp
        · exact hcur
        · exact hdone p hp
      · simp only [splitOnChar, hc, if_false, Bool.false_eq_true, h, List.headD_cons,
          List.tail_cons, List.mem_cons]
        rintro (rfl | hp)
        · intro hmem
          rcases List.mem_cons.mp hmem with rfl | hmem
          · simp at hc
          · exact hcur hmem
        · exact hdone p hp

theorem splitOnChar_append_sep (sep : Char) : ∀ (p t : PyStr), sep ∉ p →
    splitOnChar sep (p ++ sep :: t) = p :: splitOnChar sep t
  | [], t => by
    intro _
    simp [splitOnChar]
  | c :: p2, t => by
    intro hns
    have hcs : ¬ (c == sep) = true := by
      simp only [beq_iff_eq]
      intro h
      exact hns (h ▸ List.mem_cons_self c p2)
    have IH := splitOnChar_append_sep sep p2 t (fun h => hns (List.mem_cons_of_mem c h))
    simp [splitOnChar, hcs, IH]

theorem splitOnChar_of_no_sep (sep : Char) : ∀ p : PyStr, sep ∉ p →
    splitOnChar sep p = [p]
  | [] => fun _ => rfl
  | c :: p2 => by
    intro hns
    have hcs : ¬ (c == sep) = true := by
      simp only [beq_iff_eq]
      intro h
      exact hns (h ▸ List.mem_cons_self c p2)
    have IH := splitOnChar_of_no_sep sep p2 (fun h => hns (List.mem_cons_of_mem c h))
    simp [splitOnChar, hcs, IH]

theorem posixParts_mem_props (s : PyStr) (p : PyStr) (hp : p ∈ posixParts s) :
    p ≠ [] ∧ p ≠ pstr "." ∧ '/' ∉ p := by
  unfold posixParts at hp
  have h1 := List.of_mem_filter hp
  have h2 := List.mem_of_mem_filter hp
  simp only [Bool.and_eq_true, Bool.not_eq_true', beq_eq_false_iff_ne, ne_eq] at h1
  refine ⟨?_, h1.2, splitOnChar_no_sep '/' s p h2⟩
  intro h
  subst h
  simp at h1

theorem posixParts_join : ∀ ps : List PyStr,
    (∀ p ∈ ps, p ≠ [] ∧ p ≠ pstr "." ∧ '/' ∉ p) →
    posixParts (joinSep '/' ps) = ps
  | [] => by
    intro _
    decide
  | [p] => by
    intro h
    obtain ⟨h1, h2, h3⟩ := h p (List.mem_cons_self p [])
    unfold posixParts joinSep
    rw [splitOnChar_of_no_sep '/' p h3]
    simp [h1, h2, List.isEmpty_iff]
  | p :: q :: rest => by
    intro h
    obtain ⟨h1, h2, h3⟩ := h p (List.mem_cons_self p _)
    have IH := posixParts_join (q :: rest) (fun r hr => h r (List.mem_cons_of_mem p hr))
    show posixParts (p ++ '/' :: joinSep '/' (q :: rest)) = p :: q :: rest
    unfold posixParts
    rw [splitOnChar_append_sep '/' p _ h3]
    rw [List.filter_cons]
    rw [if_pos (by simp [h1, h2, List.isEmpty_iff])]
    unfold posixParts at IH
    rw [IH]

theorem posixAsPosix_parts (s : PyStr) : posixParts (posixAsPosix s) = posixParts s := by
  unfold posixAsPosix
  rcases h : posixParts s with _ | ⟨p, rest⟩
  · decide
  · rw [if_neg (by simp)]
    apply posixParts_join
    intro q hq
    exact posixParts_mem_props s q (h ▸ hq)

theorem posixAsPosix_ne_nil (s : PyStr) : posixAsPosix s ≠ [] := by
  unfold posixAsPosix
  rcases h : posixParts s with _ | ⟨p, rest⟩
  · decide
  · rw [if_neg (by simp)]
    have hp := (posixParts_mem_props s p (h ▸ List.mem_cons_self p rest)).1
    cases rest with
    | nil => simpa [joinSep] using hp
    | cons q rest2 =>
      simp only [joinSep]
      intro hcon
      rcases List.append_eq_nil.mp hcon with ⟨_, h2⟩
      cases h2

theorem posixParts_any_iff (s : PyStr) :
    ((posixParts s).any (fun part => part == pstr ".." || part.isEmpty) = true) ↔
      (pstr "..") ∈ posixParts s := by
  constructor
  · intro h
    rcases List.any_eq_true.mp h with ⟨p, hp, hcond⟩
    rcases Bool.or_eq_true .. |>.mp hcond with hc | hc
    · rw [← (beq_iff_eq ..).mp hc]
      exact hp
    · exact absurd ((List.isEmpty_iff).mp hc) (posixParts_mem_props s p hp).1
  · intro h
    exact List.any_eq_true.mpr ⟨pstr "..", h, by simp⟩

/-- Claim C1, counterexample: the input "../a" contains a ".." segment, yet the
sanitiser accepts it (returning "a"), because `candidate.lstrip("./")` strips
every leading "." and "/" character and thereby consumes the leading ".."
before the check runs.  This refutes "every input containing a `..` segment is
rejected". -/
theorem C1_sanitise_counterexample :
    (pstr "..") ∈ splitOnChar '/' (pstr "../a") ∧
    sanitisePath (pstr "../a") = .ok (pstr "a") :=
  ⟨by decide, rfl⟩

/-- Claim C1, amended: after stripping surrounding whitespace and every leading
"." and "/" character, `_sanitise_path` raises exactly when the remainder is
empty (error not naming the path) or still has a ".." component after pathlib
normalisation — which drops empty and "." components, so empty segments never
cause rejection, and a ".." lying entirely in the leading dot/slash run is
stripped rather than rejected (the unsafe-path error does name the path);
accepted paths are nonempty and free of ".." components; "a/b/c.html" is
accepted unchanged. -/
theorem C1_sanitise_amended (path : PyStr) :
    (sanitisePath path = .error .emptyPath ↔
      pyLstrip dotSlash (pyStrip isPyWsChar path) = []) ∧
    (sanitisePath path = .error (.unsafePath path) ↔
      pyLstrip dotSlash (pyStrip isPyWsChar path) ≠ [] ∧
      (pstr "..") ∈ posixParts (pyLstrip dotSlash (pyStrip isPyWsChar path))) ∧
    (∀ r, sanitisePath path = .ok r → r ≠ [] ∧ (pstr "..") ∉ posixParts r) ∧
    sanitisePath (pstr "a/b/c.html") = .ok (pstr "a/b/c.html") := by
  unfold sanitisePath
  by_cases he : (pyLstrip dotSlash (pyStrip isPyWsChar path)).isEmpty
  · rw [if_pos he]
    have he2 := (List.isEmpty_iff).mp he
    refine ⟨by simp [he2], ?_, by simp, rfl⟩
    constructor
    · intro h
      simp at h
    · rintro ⟨h1, _⟩
      exact absurd he2 h1
  · rw [if_neg he]
    have hne : pyLstrip dotSlash (pyStrip isPyWsChar path) ≠ [] := by
      intro h
      rw [h] at he
      exact he rfl
    by_cases ha : (posixParts (pyLstrip dotSlash (pyStrip isPyWsChar path))).any
        (fun part => part == pstr ".." || part.isEmpty)
    · rw [if_pos ha]
      refine ⟨by simp [hne], ⟨fun _ => ⟨hne, (posixParts_any_iff _).mp ha⟩, fun _ => rfl⟩,
        by simp, rfl⟩
    · rw [if_neg ha]
      refine ⟨by simp [hne], ⟨by simp, ?_⟩, ?_, rfl⟩
      · rintro ⟨_, hmem⟩
        exact absurd ((posixParts_any_iff _).mpr hmem) ha
      · intro r hr
        have hr2 : r = posixAsPosix (pyLstrip dotSlash (pyStrip isPyWsChar path)) := by
          cases hr
          rfl
        subst hr2
        refine ⟨posixAsPosix_ne_nil _, ?_⟩
        rw [posixAsPosix_parts]
        intro hmem
        exact absurd ((posixParts_any_iff _).mpr hmem) ha

/-- Claim C1, witness: the amended theorem applied at "a/b/c.html", whose
acceptance branch evaluates concretely. -/
theorem C1_sanitise_amended_witness :
    sanitisePath (pstr "a/b/c.html") = .ok (pstr "a/b/c.html") :=
  (C1_sanitise_amended (pstr "a/b/c.html")).2.2.2

-- UTF-8 model for Python `str.encode("utf-8")` and its inverse, used by the
-- data-URI decoder and the LLM file-manifest round trip.

/-- UTF-8 encoding of a single code point (total on `Nat`; every value a
`Char` can hold falls in the first four standard ranges). -/
def utf8EncodeCp (c : Nat) : List Nat :=
  if c < 0x80 then [c]
  else if c < 0x800 then [0xC0 + c / 64, 0x80 + c % 64]
  else if c < 0x10000 then [0xE0 + c / 4096, 0x80 + c / 64 % 64, 0x80 + c % 64]
  else [0xF0 + c / 262144, 0x80 + c / 4096 % 64, 0x80 + c / 64 % 64, 0x80 + c % 64]

/-- Model of Python `s.encode("utf-8")`. -/
def utf8Encode (s : PyStr) : PyBytes := concatMap (fun c => utf8EncodeCp c.toNat) s

/-- UTF-8 continuation-byte test. -/
def isCont (b : Nat) : Bool := 0x80 ≤ b && b < 0xC0

/-- Decoding step for a two-byte UTF-8 sequence with lead byte `b`. -/
def utf8DecTwo (b : Nat) : List Nat → Option (Nat × List Nat)
  | b1 :: r => if isCont b1 then some ((b - 0xC0) * 64 + (b1 - 0x80), r) else none
  | [] => none

/-- Decoding step for a three-byte UTF-8 sequence with lead byte `b`. -/
def utf8DecThree (b : Nat) : List Nat → Option (Nat × List Nat)
  | b1 :: b2 :: r =>
    if isCont b1 && isCont b2 then
      some ((b - 0xE0) * 4096 + (b1 - 0x80) * 64 + (b2 - 0x80), r)
    else none
  | _ => none

/-- Decoding step for a four-byte UTF-8 sequence with lead byte `b`. -/
def utf8DecFour (b : Nat) : List Nat → Option (Nat × List Nat)
  | b1 :: b2 :: b3 :: r =>
    if isCont b1 && isCont b2 && isCont b3 then
      some ((b - 0xF0) * 262144 + (b1 - 0x80) * 4096 + (b2 - 0x80) * 64 + (b3 - 0x80), r)
    else none
  | _ => none

/-- Decode one UTF-8 code point from the front of a byte string; accepts every
sequence `utf8EncodeCp` produces. -/
def utf8DecOne : List Nat → Option (Nat × List Nat)
  | [] => none
  | b :: rest =>
    if b < 0x80 then some (b, rest)
    else if b < 0xC0 then none
    else if b < 0xE0 then utf8DecTwo b rest
    else if b < 0xF0 then utf8DecThree b rest
    else utf8DecFour b rest

/-- Fuel-driven UTF-8 decoding loop (the fuel is decremented once per decoded
code point; a byte-length budget always suffices). -/
def utf8DecFuel : Nat → List Nat → Option (List Nat)
  | _, [] => some []
  | 0, _ :: _ => none
  | fuel + 1, b :: rest =>
    match utf8DecOne (b :: rest) with
    | some (c, r) => (utf8DecFuel fuel r).map (c :: ·)
    | none => none

/-- Strict UTF-8 decoding to code points; the re-encoder's inverse for the
round trip. -/
def utf8Dec (bs : List Nat) : Option (List Nat) := utf8DecFuel bs.length bs

theorem utf8DecOne_encode (n : Nat) (bs : List Nat) :
    utf8DecOne (utf8EncodeCp n ++ bs) = some (n, bs) := by
  unfold utf8EncodeCp
  by_cases h1 : n < 0x80
  · rw [if_pos h1]
    simp only [List.cons_append, List.nil_append]
    rw [utf8DecOne, if_pos h1]
  · rw [if_neg h1]
    by_cases h2 : n < 0x800
    · rw [if_pos h2]
      simp only [List.cons_append, List.nil_append]
      rw [utf8DecOne]
      rw [if_neg (by omega), if_neg (by omega), if_pos (by omega)]
      rw [utf8DecTwo]
      rw [if_pos (by simp only [isCont, Bool.and_eq_true, decide_eq_true_eq]; omega)]
      have harith : (0xC0 + n / 64 - 0xC0) * 64 + (0x80 + n % 64 - 0x80) = n := by omega
      rw [harith]
    · rw [if_neg h2]
      by_cases h3 : n < 0x10000
      · rw [if_pos h3]
        simp only [List.cons_append, List.nil_append]
        rw [utf8DecOne]
        rw [if_neg (by omega), if_neg (by omega), if_neg (by omega), if_pos (by omega)]
        rw [utf8DecThree]
        rw [if_pos (by
          simp only [isCont, Bool.and_eq_true, decide_eq_true_eq]
          omega)]
        have harith : (0xE0 + n / 4096 - 0xE0) * 4096 + (0x80 + n / 64 % 64 - 0x80) * 64 +
            (0x80 + n % 64 - 0x80) = n := by omega
        rw [harith]
      · rw [if_neg h3]
        simp only [List.cons_append, List.nil_append]
        rw [utf8DecOne]
        rw [if_neg (by omega), if_neg (by omega), if_neg (by omega), if_neg (by omega)]
        rw [utf8DecFour]
        rw [if_pos (by
          simp only [isCont, Bool.and_eq_true, decide_eq_true_eq]
          omega)]
        have harith : (0xF0 + n / 262144 - 0xF0) * 262144 + (0x80 + n / 4096 % 64 - 0x80) * 4096 +
            (0x80 + n / 64 % 64 - 0x80) * 64 + (0x80 + n % 64 - 0x80) = n := by omega
        rw [harith]

theorem utf8EncodeCp_ne_nil (n : Nat) : utf8EncodeCp n ≠ [] := by
  unfold utf8EncodeCp
  split_ifs <;> simp

theorem utf8DecFuel_nil (fuel : Nat) : utf8DecFuel fuel [] = some [] := by
  cases fuel <;> rfl

theorem utf8DecFuel_step (n : Nat) (rest : List Nat) (fuel : Nat) :
    utf8DecFuel (fuel + 1) (utf8EncodeCp n ++ rest) = (utf8DecFuel fuel rest).map (n :: ·) := by
  have hone := utf8DecOne_encode n rest
  rcases hcons : utf8EncodeCp n with _ | ⟨b, tl⟩
  · exact absurd hcons (utf8EncodeCp_ne_nil n)
  · rw [hcons, List.cons_append] at hone
    rw [List.cons_append, utf8DecFuel, hone]

theorem utf8DecFuel_encode : ∀ (s : PyStr) (fuel : Nat) (bs : List Nat),
    utf8DecFuel (s.length + fuel) (utf8Encode s ++ bs) =
      (utf8DecFuel fuel bs).map (fun cps => s.map Char.toNat ++ cps)
  | [], fuel, bs => by
    simp only [List.length_nil, Nat.zero_add, List.map_nil, List.nil_append]
    show utf8DecFuel fuel bs = _
    cases utf8DecFuel fuel bs <;> simp
  | c :: s2, fuel, bs => by
    have hlen : (c :: s2).length + fuel = s2.length + fuel + 1 := by
      simp only [List.length_cons]
      omega
    rw [hlen]
    rw [show utf8Encode (c :: s2) = utf8EncodeCp c.toNat ++ utf8Encode s2 from rfl]
    rw [List.append_assoc]
    rw [utf8DecFuel_step, utf8DecFuel_encode s2 fuel bs]
    cases utf8DecFuel fuel bs <;> simp

theorem utf8Encode_len_ge : ∀ s : PyStr, s.length ≤ (utf8Encode s).length
  | [] => Nat.le_refl _
  | c :: rest => by
    show (c :: rest).length ≤ (utf8EncodeCp c.toNat ++ utf8Encode rest).length
    rw [List.length_append, List.length_cons]
    have h1 : 1 ≤ (utf8EncodeCp c.toNat).length := by
      rcases hcons : utf8EncodeCp c.toNat with _ | ⟨b, tl⟩
      · exact absurd hcons (utf8EncodeCp_ne_nil _)
      · simp
    have h2 := utf8Encode_len_ge rest
    omega

theorem utf8Dec_encode (s : PyStr) : utf8Dec (utf8Encode s) = some (s.map Char.toNat) := by
  unfold utf8Dec
  have hlen := utf8Encode_len_ge s
  have h := utf8DecFuel_encode s ((utf8Encode s).length - s.length) []
  rw [List.append_nil] at h
  have heq : s.length + ((utf8Encode s).length - s.length) = (utf8Encode s).length := by omega
  rw [heq] at h
  rw [h, utf8DecFuel_nil]
  simp

theorem char_toNat_inj {c d : Char} (h : c.toNat = d.toNat) : c = d := by
  have h1 := Char.ofNat_toNat c
  have h2 := Char.ofNat_toNat d
  rw [h] at h1
  exact h1.symm.trans h2

theorem charList_toNat_inj : ∀ {s t : PyStr}, s.map Char.toNat = t.map Char.toNat → s = t
  | [], [] => fun _ => rfl
  | [], _ :: _ => by simp
  | _ :: _, [] => by simp
  | c :: s2, d :: t2 => by
    simp only [List.map_cons, List.cons.injEq]
    rintro ⟨h1, h2⟩
    exact ⟨char_toNat_inj h1, charList_toNat_inj h2⟩

theorem utf8Encode_inj {s t : PyStr} (h : utf8Encode s = utf8Encode t) : s = t := by
  have h1 := utf8Dec_encode s
  rw [h, utf8Dec_encode t, Option.some.injEq] at h1
  exact charList_toNat_inj h1.symm

/-- Back from decoded code points to the string model. -/
def cpsToChars (cps : List Nat) : PyStr := cps.map Char.ofNat

theorem cpsToChars_toNat : ∀ s : PyStr, cpsToChars (s.map Char.toNat) = s
  | [] => rfl
  | c :: rest => by
    show Char.ofNat c.toNat :: cpsToChars (rest.map Char.toNat) = c :: rest
    rw [Char.ofNat_toNat, cpsToChars_toNat rest]

-- Model of `urllib.parse.unquote_plus` as used by `utils.decode_data_uri`.

/-- Modelled stdlib boundary: CPython's UTF-8 decoder with errors="replace",
applied by `urllib.parse.unquote` to each maximal run of percent-decoded
bytes.  Valid sequences decode exactly (via `utf8DecOne`); each invalid byte
group yields one U+FFFD.  CPython coalesces maximal invalid subsequences into
single replacement characters in some cases; that grouping is abstracted here
— every theorem below depends only on valid-sequence behaviour and on the
output never being longer than the input, both of which hold for CPython. -/
def utf8DecodeReplaceFuel : Nat → List Nat → List Nat
  | _, [] => []
  | 0, _ :: _ => []
  | fuel + 1, b :: rest =>
    match utf8DecOne (b :: rest) with
    | some (c, r) => c :: utf8DecodeReplaceFuel fuel r
    | none => 0xFFFD :: utf8DecodeReplaceFuel fuel rest

/-- UTF-8 decoding with replacement, with a byte-length fuel budget. -/
def utf8DecodeReplace (bs : List Nat) : List Nat := utf8DecodeReplaceFuel bs.length bs

theorem utf8DecodeReplaceFuel_len : ∀ (fuel : Nat) (bs : List Nat),
    (utf8DecodeReplaceFuel fuel bs).length ≤ fuel
  | _, [] => by
    rw [show ∀ f, utf8DecodeReplaceFuel f [] = [] from fun f => by cases f <;> rfl]
    simp
  | 0, _ :: _ => by
    rw [utf8DecodeReplaceFuel]
    simp
  | fuel + 1, b :: rest => by
    rw [utf8DecodeReplaceFuel]
    rcases h : utf8DecOne (b :: rest) with _ | ⟨c, r⟩
    · simp only [List.length_cons]
      have := utf8DecodeReplaceFuel_len fuel rest
      omega
    · simp only [List.length_cons]
      have := utf8DecodeReplaceFuel_len fuel r
      omega

theorem utf8DecodeReplace_len (bs : List Nat) :
    (utf8DecodeReplace bs).length ≤ bs.length :=
  utf8DecodeReplaceFuel_len bs.length bs

/-- ASCII hexadecimal digits, as accepted by `urllib.parse.unquote`. -/
def isHexDigit (c : Char) : Bool :=
  (48 ≤ c.toNat && c.toNat ≤ 57) || (65 ≤ c.toNat && c.toNat ≤ 70) ||
  (97 ≤ c.toNat && c.toNat ≤ 102)

/-- Numeric value of a hexadecimal digit. -/
def hexVal (c : Char) : Nat :=
  if c.toNat ≤ 57 then c.toNat - 48 else if c.toNat ≤ 70 then c.toNat - 55 else c.toNat - 87

/-- The byte encoded by a two-hex-digit escape. -/
def hexByte (a b : Char) : Nat := 16 * hexVal a + hexVal b

/-- Flushing a run of percent-decoded bytes back into the output string:
UTF-8-decode them with replacement, as CPython's `unquote` does. -/
def unquoteFlush (pending : List Nat) : List Char := cpsToChars (utf8DecodeReplace pending)

/-- Model of `urllib.parse.unquote` (after plus-translation): scan the string,
collecting the bytes of each maximal run of valid %XX escapes in `pending` and
flushing them through the replacing UTF-8 decoder at the run's end; a "%" not
followed by two hex digits is literal.  A string shorter than three characters
cannot start an escape, which the first three cases reflect. -/
def pyUnquoteAux (pending : List Nat) : List Char → List Char
  | [] => unquoteFlush pending
  | [c] => unquoteFlush pending ++ [c]
  | [c, d] => unquoteFlush pending ++ c :: pyUnquoteAux [] [d]
  | c :: a :: b :: rest =>
    if (c == '%') && isHexDigit a && isHexDigit b then
      pyUnquoteAux (pending ++ [hexByte a b]) rest
    else unquoteFlush pending ++ c :: pyUnquoteAux [] (a :: b :: rest)

/-- The plus-to-space translation `string.replace("+", " ")` that
`urllib.parse.unquote_plus` performs before percent-decoding. -/
def mapPlusToSpace (s : PyStr) : PyStr := s.map (fun c => if c = '+' then ' ' else c)

/-- Model of `urllib.parse.unquote_plus`. -/
def pyUnquotePlus (s : PyStr) : PyStr := pyUnquoteAux [] (mapPlusToSpace s)

theorem unquoteFlush_len (pending : List Nat) : (unquoteFlush pending).length ≤ pending.length := by
  unfold unquoteFlush cpsToChars
  rw [List.length_map]
  exact utf8DecodeReplace_len pending

theorem pyUnquoteAux_len : ∀ (s : List Char) (pending : List Nat),
    (pyUnquoteAux pending s).length ≤ pending.length + s.length
  | [], pending => by
    rw [pyUnquoteAux]
    simpa using unquoteFlush_len pending
  | [c], pending => by
    rw [pyUnquoteAux]
    have := unquoteFlush_len pending
    simp only [List.length_append, List.length_cons, List.length_nil]
    omega
  | [c, d], pending => by
    rw [pyUnquoteAux]
    have h1 := unquoteFlush_len pending
    have h2 := pyUnquoteAux_len [d] []
    simp only [List.length_append, List.length_cons, List.length_nil] at *
    omega
  | c :: a :: b :: rest, pending => by
    rw [pyUnquoteAux]
    split
    · have := pyUnquoteAux_len rest (pending ++ [hexByte a b])
      simp only [List.length_append, List.length_cons, List.length_nil] at *
      omega
    · have h1 := unquoteFlush_len pending
      have h2 := pyUnquoteAux_len (a :: b :: rest) []
      simp only [List.length_append, List.length_cons, List.length_nil] at *
      omega

theorem pyUnquoteAux_id_or_short : ∀ s : List Char,
    pyUnquoteAux [] s = s ∨ (pyUnquoteAux [] s).length < s.length
  | [] => Or.inl rfl
  | [c] => Or.inl rfl
  | [c, d] => Or.inl rfl
  | c :: a :: b :: rest => by
    rw [pyUnquoteAux]
    split
    · right
      have := pyUnquoteAux_len rest ([] ++ [hexByte a b])
      simp only [List.length_cons, List.nil_append, List.length_append, List.length_nil] at *
      omega
    · rcases pyUnquoteAux_id_or_short (a :: b :: rest) with h | h
      · left
        rw [h]
        rfl
      · right
        simp only [List.length_cons] at *
        have hflush : (unquoteFlush [] ++ c :: pyUnquoteAux [] (a :: b :: rest)).length =
            1 + (pyUnquoteAux [] (a :: b :: rest)).length := by
          rw [show unquoteFlush [] = [] from rfl]
          simp only [List.nil_append, List.length_cons]
          omega
        omega

-- Base64 model (Python base64.b64encode / b64decode, standard alphabet).

/-- The standard base64 alphabet. -/
def b64Alphabet : PyStr :=
  pstr "ABCDEFGHIJKLMNOPQRSTUVWXYZabcdefghijklmnopqrstuvwxyz0123456789+/"

/-- Character for a 6-bit group. -/
def b64Chr (n : Nat) : Char := b64Alphabet.getD n 'A'

/-- Index of a base64 character, `none` for characters outside the alphabet. -/
def b64Val (c : Char) : Option Nat := b64Alphabet.findIdx? (· == c)

/-- Model of `base64.b64encode`: three input bytes per four output characters,
with "=" padding for a final group of one or two bytes. -/
def b64Encode : PyBytes → PyStr
  | [] => []
  | [a] => [b64Chr (a / 4), b64Chr (a % 4 * 16), '=', '=']
  | [a, b] => [b64Chr (a / 4), b64Chr (a % 4 * 16 + b / 16), b64Chr (b % 16 * 4), '=']
  | a :: b :: c :: rest =>
    b64Chr (a / 4) :: b64Chr (a % 4 * 16 + b / 16) :: b64Chr (b % 16 * 4 + c / 64) ::
      b64Chr (c % 64) :: b64Encode rest

/-- Decode one four-character base64 group; a padded group must end the
input, which the returned remainder (forced to `[]`) reflects. -/
def b64DecStep : PyStr → Option (PyBytes × PyStr)
  | w :: x :: y :: z :: rest =>
    (b64Val w).bind fun vw =>
      (b64Val x).bind fun vx =>
        if y = '=' then
          if z = '=' ∧ rest = [] then some ([vw * 4 + vx / 16], []) else none
        else
          (b64Val y).bind fun vy =>
            if z = '=' then
              if rest = [] then some ([vw * 4 + vx / 16, vx % 16 * 16 + vy / 4], []) else none
            else
              (b64Val z).bind fun vz =>
                some ([vw * 4 + vx / 16, vx % 16 * 16 + vy / 4, vy % 4 * 64 + vz], rest)
  | _ => none

/-- Fuel-driven base64 decoding loop (one unit of fuel per four-character
group; a character-length budget always suffices). -/
def b64DecFuel : Nat → PyStr → Option PyBytes
  | _, [] => some []
  | 0, _ :: _ => none
  | fuel + 1, s => (b64DecStep s).bind fun pr => (b64DecFuel fuel pr.2).map (pr.1 ++ ·)

/-- Model of `base64.b64decode` on cleanly padded input.  (CPython's default
`validate=False` silently discards characters outside the alphabet before
decoding; inputs relying on that, or with garbage after padding, are rejected
here instead — every byte string produced by `b64Encode` decodes exactly, and
no claim exercises the discard behaviour.) -/
def b64Dec (s : PyStr) : Option PyBytes := b64DecFuel s.length s

-- Model of utils.DATA_URI_RE and utils.decode_data_uri.

/-- ASCII word characters (`\w`): letters, digits, underscore.  (Python's
`\w` also matches non-ASCII word characters; the model keeps the ASCII core —
all that matters below is that ";" and "," are excluded.) -/
def isWordChar (c : Char) : Bool :=
  (65 ≤ c.toNat && c.toNat ≤ 90) || (97 ≤ c.toNat && c.toNat ≤ 122) ||
  (48 ≤ c.toNat && c.toNat ≤ 57) || c == '_'

/-- Characters of the regex class `[\w/+.-]` (the mime group). -/
def isMimeChar (c : Char) : Bool :=
  isWordChar c || c == '/' || c == '+' || c == '.' || c == '-'

/-- Characters of the regex class `[\w=+-]` (the parameter group). -/
def isParamChar (c : Char) : Bool :=
  isWordChar c || c == '=' || c == '+' || c == '-'

/-- Model of the regex group `(;[\w=+-]+)*`: greedily consume semicolon-led
runs of at least one parameter character; returns the consumed text and the
remainder.  Greedy maximal-munch is complete here because ";" and "," are in
no character class.  Fuel is bounded by the string length. -/
def matchParamsFuel : Nat → PyStr → PyStr × PyStr
  | 0, s => ([], s)
  | fuel + 1, s =>
    match s with
    | ';' :: rest =>
      if (rest.takeWhile isParamChar).isEmpty then ([], s)
      else
        let pr := matchParamsFuel fuel (rest.dropWhile isParamChar)
        (';' :: rest.takeWhile isParamChar ++ pr.1, pr.2)
    | _ => ([], s)

/-- The three capturing groups of a successful `DATA_URI_RE` match: the mime
group (None when empty), the raw params-group text, and the data group. -/
structure DataUriParts where
  mime : Option PyStr
  params : PyStr
  data : PyStr
deriving DecidableEq

/-- Model of `utils.DATA_URI_RE.match(uri)`
(`^data:(mime)?(params)?(;base64)?,(data)$`, IGNORECASE): the "data:" prefix
case-insensitively, a greedy run of mime characters, the semicolon parameter
groups (a trailing ";base64" is always absorbed by the greedy params group, so
the standalone `(;base64)?` group never captures), a comma, and a data group
in which `.` forbids newlines while `$` tolerates one trailing newline. -/
def dataUriMatch (uri : PyStr) : Option DataUriParts :=
  if pyLower (uri.take 5) = pstr "data:" then
    let rest0 := uri.drop 5
    let mime := rest0.takeWhile isMimeChar
    let rest1 := rest0.dropWhile isMimeChar
    let pr := matchParamsFuel rest1.length rest1
    match pr.2 with
    | ',' :: dataRest =>
      if '\n' ∈ dataRest then
        if dataRest.getLast? = some '\n' ∧ '\n' ∉ dataRest.dropLast then
          some ⟨if mime.isEmpty then none else some mime, pr.1, dataRest.dropLast⟩
        else none
      else some ⟨if mime.isEmpty then none else some mime, pr.1, dataRest⟩
    | _ => none
  else none

/-- Model of `";base64" in (match.group("params") or "")`: substring test. -/
def isBase64Params (params : PyStr) : Bool := decide (pstr ";base64" <:+: params)

/-- Failure modes of `utils.decode_data_uri`. -/
inductive DataUriError where
  | invalidUri
  | badBase64
deriving DecidableEq

/-- Model of `utils.decode_data_uri`: regex-match the URI, then either
base64-decode the payload or URL-unescape it (with plus-to-space translation)
and UTF-8-encode the result; returns the bytes with the optional MIME type.
`invalidUri` is the explicit `ValueError("Invalid data URI")`; `badBase64`
models the `binascii.Error` an undecodable base64 payload lets propagate. -/
def decodeDataUri (uri : PyStr) : Except DataUriError (PyBytes × Option PyStr) :=
  match dataUriMatch uri with
  | none => .error .invalidUri
  | some parts =>
    if isBase64Params parts.params then
      match b64Dec parts.data with
      | some bs => .ok (bs, parts.mime)
      | none => .error .badBase64
    else .ok (utf8Encode (pyUnquotePlus parts.data), parts.mime)

theorem mapPlusToSpace_getD : ∀ (p : PyStr) (i : Nat),
    p.getD i ' ' = '+' → (mapPlusToSpace p).getD i ' ' = ' '
  | [], i => by simp [mapPlusToSpace]
  | c :: rest, 0 => by
    intro h
    simp only [List.getD_cons_zero] at h
    simp [mapPlusToSpace, h]
  | c :: rest, i + 1 => by
    intro h
    simp only [List.getD_cons_succ] at h ⊢
    exact mapPlusToSpace_getD rest i h

theorem mapPlusToSpace_ne : ∀ p : PyStr, '+' ∈ p → mapPlusToSpace p ≠ p
  | [] => by simp
  | c :: rest => by
    intro hp heq
    simp only [mapPlusToSpace, List.map_cons, List.cons.injEq] at heq
    by_cases hc : c = '+'
    · rw [if_pos hc] at heq
      exact absurd (heq.1.trans hc) (by decide)
    · rcases List.mem_cons.mp hp with h | h
      · exact hc h.symm
      · exact mapPlusToSpace_ne rest h heq.2

/-- Claim C10: for every well-formed data URI whose payload is not marked
base64, `decode_data_uri` URL-unescapes the payload with plus-to-space
translation and UTF-8-encodes the result; the plus translation turns the
character at every position holding "+" into a space (so each literal "+"
contributes the space byte 0x20); consequently any non-base64 payload
containing "+" is never recovered byte-for-byte. -/
theorem C10_data_uri_plus_to_space :
    (∀ (uri : PyStr) (parts : DataUriParts), dataUriMatch uri = some parts →
      isBase64Params parts.params = false →
      decodeDataUri uri = .ok (utf8Encode (pyUnquoteAux [] (mapPlusToSpace parts.data)),
        parts.mime)) ∧
    (∀ (p : PyStr) (i : Nat), p.getD i ' ' = '+' → (mapPlusToSpace p).getD i ' ' = ' ') ∧
    (∀ p : PyStr, '+' ∈ p → utf8Encode (pyUnquotePlus p) ≠ utf8Encode p) := by
  refine ⟨?_, mapPlusToSpace_getD, ?_⟩
  · intro uri parts hmatch hb64
    unfold decodeDataUri
    rw [hmatch]
    simp only [hb64, Bool.false_eq_true, if_false]
    rfl
  · intro p hp heq
    rcases pyUnquoteAux_id_or_short (mapPlusToSpace p) with h | h
    · unfold pyUnquotePlus at heq
      rw [h] at heq
      exact mapPlusToSpace_ne p hp (utf8Encode_inj heq)
    · have hup : pyUnquotePlus p = p := utf8Encode_inj heq
      unfold pyUnquotePlus at hup
      rw [hup] at h
      rw [show (mapPlusToSpace p).length = p.length from List.length_map ..] at h
      omega

/-- Claim C10, witness: the theorem applied to the data URI "data:,a+b",
whose payload "a+b" decodes to the bytes of "a b" — the "+" became 0x20 and
the payload is not recovered byte-for-byte. -/
theorem C10_data_uri_plus_to_space_witness :
    decodeDataUri (pstr "data:,a+b") =
      .ok (utf8Encode (pyUnquoteAux [] (mapPlusToSpace (pstr "a+b"))), none) ∧
    utf8Encode (pyUnquoteAux [] (mapPlusToSpace (pstr "a+b"))) = [97, 32, 98] ∧
    utf8Encode (pyUnquotePlus (pstr "a+b")) ≠ utf8Encode (pstr "a+b") := by
  refine ⟨?_, by decide, C10_data_uri_plus_to_space.2.2 (pstr "a+b") (by decide)⟩
  exact C10_data_uri_plus_to_space.1 (pstr "data:,a+b") ⟨none, [], pstr "a+b"⟩
    (by decide) (by decide)

-- Round-trip facts for the base64 model.

theorem b64Val_chr : ∀ n : Nat, n < 64 → b64Val (b64Chr n) = some n := by decide

theorem b64Chr_ne_pad : ∀ n : Nat, n < 64 → b64Chr n ≠ '=' := by decide

theorem b64DecStep_full (a b c : Nat) (rest : PyStr)
    (ha : a < 256) (hb : b < 256) (hc : c < 256) :
    b64DecStep (b64Chr (a / 4) :: b64Chr (a % 4 * 16 + b / 16) ::
      b64Chr (b % 16 * 4 + c / 64) :: b64Chr (c % 64) :: rest) = some ([a, b, c], rest) := by
  have hvw := b64Val_chr (a / 4) (by omega)
  have hvx := b64Val_chr (a % 4 * 16 + b / 16) (by omega)
  have hvy := b64Val_chr (b % 16 * 4 + c / 64) (by omega)
  have hvz := b64Val_chr (c % 64) (by omega)
  rw [b64DecStep]
  simp only [hvw, hvx, hvy, hvz, Option.some_bind]
  rw [if_neg (b64Chr_ne_pad _ (by omega)), if_neg (b64Chr_ne_pad _ (by omega))]
  have h1 : a / 4 * 4 + (a % 4 * 16 + b / 16) / 16 = a := by omega
  have h2 : (a % 4 * 16 + b / 16) % 16 * 16 + (b % 16 * 4 + c / 64) / 4 = b := by omega
  have h3 : (b % 16 * 4 + c / 64) % 4 * 64 + c % 64 = c := by omega
  rw [h1, h2, h3]

theorem b64DecStep_two (a b : Nat) (ha : a < 256) (hb : b < 256) :
    b64DecStep (b64Chr (a / 4) :: b64Chr (a % 4 * 16 + b / 16) ::
      b64Chr (b % 16 * 4) :: '=' :: []) = some ([a, b], []) := by
  have hvw := b64Val_chr (a / 4) (by omega)
  have hvx := b64Val_chr (a % 4 * 16 + b / 16) (by omega)
  have hvy := b64Val_chr (b % 16 * 4) (by omega)
  rw [b64DecStep]
  simp only [hvw, hvx, hvy, Option.some_bind]
  rw [if_neg (b64Chr_ne_pad _ (by omega))]
  rw [if_pos trivial, if_pos trivial]
  have h1 : a / 4 * 4 + (a % 4 * 16 + b / 16) / 16 = a := by omega
  have h2 : (a % 4 * 16 + b / 16) % 16 * 16 + (b % 16 * 4) / 4 = b := by omega
  rw [h1, h2]

theorem b64DecStep_one (a : Nat) (ha : a < 256) :
    b64DecStep (b64Chr (a / 4) :: b64Chr (a % 4 * 16) :: '=' :: '=' :: []) =
      some ([a], []) := by
  have hvw := b64Val_chr (a / 4) (by omega)
  have hvx := b64Val_chr (a % 4 * 16) (by omega)
  rw [b64DecStep]
  simp only [hvw, hvx, Option.some_bind]
  rw [if_pos trivial, if_pos ⟨trivial, trivial⟩]
  have h1 : a / 4 * 4 + a % 4 * 16 / 16 = a := by omega
  rw [h1]

theorem b64DecFuel_nil (fuel : Nat) : b64DecFuel fuel [] = some [] := by
  cases fuel <;> rfl

theorem b64DecFuel_cons (fuel : Nat) (c : Char) (s : PyStr) :
    b64DecFuel (fuel + 1) (c :: s) =
      (b64DecStep (c :: s)).bind fun pr => (b64DecFuel fuel pr.2).map (pr.1 ++ ·) := rfl

theorem b64Encode_len_ge : ∀ bs : PyBytes, bs.length ≤ (b64Encode bs).length
  | [] => Nat.le_refl _
  | [_] => by simp [b64Encode]
  | [_, _] => by simp [b64Encode]
  | a :: b :: c :: rest => by
    have := b64Encode_len_ge rest
    simp only [b64Encode, List.length_cons]
    omega

theorem b64DecFuel_encode : ∀ (bs : PyBytes) (fuel : Nat), (∀ x ∈ bs, x < 256) →
    b64DecFuel (bs.length + fuel + 1) (b64Encode bs) = some bs
  | [], fuel, _ => by
    rw [show b64Encode [] = [] from rfl, b64DecFuel_nil]
  | [a], fuel, h => by
    rw [show ([a] : PyBytes).length + fuel + 1 = (1 + fuel) + 1 from by
      simp only [List.length_cons, List.length_nil]]
    rw [show b64Encode [a] =
      b64Chr (a / 4) :: b64Chr (a % 4 * 16) :: '=' :: '=' :: [] from rfl]
    rw [b64DecFuel_cons]
    rw [b64DecStep_one a (h a (by simp))]
    simp only [Option.some_bind, b64DecFuel_nil]
    rfl
  | [a, b], fuel, h => by
    rw [show ([a, b] : PyBytes).length + fuel + 1 = (2 + fuel) + 1 from by
      simp only [List.length_cons, List.length_nil]]
    rw [show b64Encode [a, b] = b64Chr (a / 4) :: b64Chr (a % 4 * 16 + b / 16) ::
      b64Chr (b % 16 * 4) :: '=' :: [] from rfl]
    rw [b64DecFuel_cons]
    rw [b64DecStep_two a b (h a (by simp)) (h b (by simp))]
    simp only [Option.some_bind, b64DecFuel_nil]
    rfl
  | a :: b :: c :: rest, fuel, h => by
    have hrest : ∀ x ∈ rest, x < 256 := fun x hx => h x (by simp [hx])
    have IH := b64DecFuel_encode rest (fuel + 2) hrest
    rw [show (a :: b :: c :: rest : PyBytes).length + fuel + 1 =
      (rest.length + (fuel + 2) + 1) + 1 from by
      simp only [List.length_cons]
      omega]
    rw [show b64Encode (a :: b :: c :: rest) = b64Chr (a / 4) ::
      b64Chr (a % 4 * 16 + b / 16) :: b64Chr (b % 16 * 4 + c / 64) :: b64Chr (c % 64) ::
      b64Encode rest from rfl]
    rw [b64DecFuel_cons]
    rw [b64DecStep_full a b c (b64Encode rest) (h a (by simp)) (h b (by simp)) (h c (by simp))]
    simp only [Option.some_bind, IH]
    rfl

theorem b64_roundtrip (bs : PyBytes) (h : ∀ x ∈ bs, x < 256) :
    b64Dec (b64Encode bs) = some bs := by
  unfold b64Dec
  cases bs with
  | nil => rfl
  | cons a rest =>
    have hlen : (a :: rest).length + 1 ≤ (b64Encode (a :: rest)).length := by
      rcases rest with _ | ⟨b, rest2⟩
      · simp [b64Encode]
      · rcases rest2 with _ | ⟨c, rest3⟩
        · simp [b64Encode]
        · have := b64Encode_len_ge rest3
          simp only [b64Encode, List.length_cons]
          omega
    have heq : (a :: rest).length +
        ((b64Encode (a :: rest)).length - (a :: rest).length - 1) + 1 =
        (b64Encode (a :: rest)).length := by omega
    rw [← heq]
    exact b64DecFuel_encode (a :: rest) _ h

-- Model of services/llm_generator._parse_files (lines 144-186).

/-- JSON values as produced by `json.loads` (numbers restricted to integers;
no claim exercises fractional numbers). -/
inductive JVal where
  | null : JVal
  | bool (b : Bool) : JVal
  | num (n : Int) : JVal
  | str (s : PyStr) : JVal
  | arr (xs : List JVal) : JVal
  | obj (kvs : List (PyStr × JVal)) : JVal

/-- Python truthiness of a JSON value. -/
def jTruthy : JVal → Bool
  | .null => false
  | .bool b => b
  | .num n => n != 0
  | .str s => !s.isEmpty
  | .arr xs => !xs.isEmpty
  | .obj kvs => !kvs.isEmpty

/-- Model of `dict.get(k)` on a decoded JSON object (`None` when absent). -/
def pyGet (kvs : List (PyStr × JVal)) (k : PyStr) : JVal :=
  match kvs.find? (fun pr => pr.1 == k) with
  | some pr => pr.2
  | none => JVal.null

/-- Python dict assignment `d[k] = v`: overwrite the binding in place when
the key is present, else append it. -/
def dictSet : List (PyStr × PyBytes) → PyStr → PyBytes → List (PyStr × PyBytes)
  | [], k, v => [(k, v)]
  | (k0, v0) :: rest, k, v =>
    if k0 = k then (k0, v) :: rest else (k0, v0) :: dictSet rest k v

/-- `llm_generator.MAX_FILE_BYTES`: 512 KB per-file cap. -/
def MAX_FILE_BYTES : Nat := 512000

/-- Errors escaping `_parse_files`: the `LLMGenerationError`s it raises, plus
the `AttributeError` Python raises (uncaught there) when `.lower()` is called
on a truthy non-string encoding or `.get` on a non-dict document. -/
inductive PyExn where
  | gen (e : LLMGenerationError) : PyExn
  | attributeError : PyExn
deriving DecidableEq

theorem except_bind_ok {ε α β : Type} (a : α) (f : α → Except ε β) :
    Except.bind (Except.ok a) f = f a := rfl

theorem except_mapError_ok {ε ζ α : Type} (f : ε → ζ) (a : α) :
    Except.mapError f (Except.ok a) = Except.ok a := rfl

/-- `(entry.get("encoding") or "utf-8").lower()`: the default replaces any
falsy value; `.lower()` on a truthy non-string raises `AttributeError`. -/
def entryEncodingStr (v : JVal) : Except PyExn PyStr :=
  match (if jTruthy v then v else .str (pstr "utf-8")) with
  | .str es => .ok (pyLower es)
  | _ => .error .attributeError

/-- `if not path or not isinstance(path, str)` guard of `_parse_files`. -/
def entryPathStr (v : JVal) : Except PyExn PyStr :=
  if jTruthy v then
    match v with
    | .str s => .ok s
    | _ => .error (.gen .missingPath)
  else .error (.gen .missingPath)

/-- `if content is None or not isinstance(content, str)` guard (the error
message names the entry's raw path). -/
def entryContentStr (ps : PyStr) (v : JVal) : Except PyExn PyStr :=
  match v with
  | .str s => .ok s
  | _ => .error (.gen (.missingContent ps))

/-- Content decoding of `_parse_files`: `base64.b64decode(content)` when the
lowered encoding is "base64" (failure named after the sanitised path), else
`content.encode("utf-8")`. -/
def decodeContent (encoding safePath cs : PyStr) : Except PyExn PyBytes :=
  if encoding = pstr "base64" then
    match b64Dec cs with
    | some bs => .ok bs
    | none => .error (.gen (.badBase64 safePath))
  else .ok (utf8Encode cs)

/-- `if len(bytes_content) > MAX_FILE_BYTES` cap of `_parse_files`. -/
def checkSize (safePath : PyStr) (bs : PyBytes) : Except PyExn (PyStr × PyBytes) :=
  if MAX_FILE_BYTES < bs.length then .error (.gen (.fileTooLarge safePath))
  else .ok (safePath, bs)

/-- One `files` entry of `_parse_files` (source order: encoding extraction
with its possible `AttributeError`, path guard, content guard, path
sanitisation, content decoding, size cap); exception propagation is the
`Except` bind. -/
def parseEntryObj (kvs : List (PyStr × JVal)) : Except PyExn (PyStr × PyBytes) :=
  Except.bind (entryEncodingStr (pyGet kvs (pstr "encoding"))) fun encoding =>
  Except.bind (entryPathStr (pyGet kvs (pstr "path"))) fun ps =>
  Except.bind (entryContentStr ps (pyGet kvs (pstr "content"))) fun cs =>
  Except.bind (Except.mapError PyExn.gen (sanitisePath ps)) fun safePath =>
  Except.bind (decodeContent encoding safePath cs) fun bs =>
  checkSize safePath bs

/-- `if not isinstance(entry, dict)` guard wrapping `parseEntryObj`. -/
def parseEntry (entry : JVal) : Except PyExn (PyStr × PyBytes) :=
  match entry with
  | .obj kvs => parseEntryObj kvs
  | _ => .error (.gen .entryNotObject)

/-- The entry loop of `_parse_files`, accumulating the
`result[safe_path] = bytes_content` dict assignments. -/
def parseFilesEntries : List JVal → List (PyStr × PyBytes) →
    Except PyExn (List (PyStr × PyBytes))
  | [], acc => .ok acc
  | e :: rest, acc =>
    Except.bind (parseEntry e) fun pb => parseFilesEntries rest (dictSet acc pb.1 pb.2)

/-- Model of `_parse_files` from the decoded JSON document onward
(`json.loads` of the fence-stripped payload is the stdlib boundary; the
manifest is taken as a JSON value): `parsed.get("files")` must be a nonempty
list, whose entries are folded through `parseEntry`. -/
def parseFiles (parsed : JVal) : Except PyExn (List (PyStr × PyBytes)) :=
  match parsed with
  | .obj kvs =>
    match pyGet kvs (pstr "files") with
    | .arr entries =>
      if entries.isEmpty then .error (.gen .noFiles)
      else parseFilesEntries entries []
    | _ => .error (.gen .noFiles)
  | _ => .error .attributeError

/-- Re-encode one parsed file back into a `files` entry with its original
encoding: base64 bytes via `base64.b64encode`, UTF-8 bytes by decoding them
back to the text whose encoding they are. -/
def encodeFileEntry (enc p : PyStr) (bs : PyBytes) : JVal :=
  JVal.obj [(pstr "path", .str p),
    (pstr "content", .str (if enc = pstr "base64" then b64Encode bs
      else cpsToChars ((utf8Dec bs).getD []))),
    (pstr "encoding", .str enc)]

/-- A (path, bytes, encoding) triple is parser-shaped: its path is a fixed
point of the sanitiser (a safe relative path), its encoding is "utf-8" or
"base64", its bytes fit the encoding (base64 bytes are genuine byte values;
UTF-8 bytes are the UTF-8 encoding of some text, exactly what
`content.encode("utf-8")` produces), and it respects the size cap. -/
def goodItem (t : PyStr × PyBytes × PyStr) : Prop :=
  sanitisePath t.1 = .ok t.1 ∧
  (t.2.2 = pstr "utf-8" ∨ t.2.2 = pstr "base64") ∧
  (t.2.2 = pstr "base64" → ∀ x ∈ t.2.1, x < 256) ∧
  (t.2.2 = pstr "utf-8" → ∃ cs, t.2.1 = utf8Encode cs) ∧
  t.2.1.length ≤ MAX_FILE_BYTES

theorem sanitisePath_ok_ne_nil {x q : PyStr} (h : sanitisePath x = .ok q) : q ≠ [] := by
  simp only [sanitisePath] at h
  split_ifs at h
  all_goals
    first
      | exact Except.noConfusion h
      | (injection h with h2; exact h2 ▸ posixAsPosix_ne_nil _)

theorem pyGet_path (a b c : JVal) :
    pyGet [(pstr "path", a), (pstr "content", b), (pstr "encoding", c)]
      (pstr "path") = a := rfl

theorem pyGet_content (a b c : JVal) :
    pyGet [(pstr "path", a), (pstr "content", b), (pstr "encoding", c)]
      (pstr "content") = b := rfl

theorem pyGet_encoding (a b c : JVal) :
    pyGet [(pstr "path", a), (pstr "content", b), (pstr "encoding", c)]
      (pstr "encoding") = c := rfl

theorem parseEntry_encodeFileEntry (p : PyStr) (bs : PyBytes) (enc : PyStr)
    (hsan : sanitisePath p = .ok p)
    (henc : enc = pstr "utf-8" ∨ enc = pstr "base64")
    (hb64 : enc = pstr "base64" → ∀ x ∈ bs, x < 256)
    (hutf : enc = pstr "utf-8" → ∃ cs, bs = utf8Encode cs)
    (hsize : bs.length ≤ MAX_FILE_BYTES) :
    parseEntry (encodeFileEntry enc p bs) = .ok (p, bs) := by
  have hpne : p ≠ [] := sanitisePath_ok_ne_nil hsan
  have hpath : entryPathStr (JVal.str p) = .ok p := by
    cases p with
    | nil => exact absurd rfl hpne
    | cons c r => rfl
  have hcheck : checkSize p bs = .ok (p, bs) := by
    unfold checkSize
    rw [if_neg (by simp only [MAX_FILE_BYTES] at hsize ⊢; omega)]
  rcases henc with henc | henc
  · subst henc
    obtain ⟨cs, hbs⟩ := hutf rfl
    subst hbs
    have hcont : (if pstr "utf-8" = pstr "base64" then b64Encode (utf8Encode cs)
        else cpsToChars ((utf8Dec (utf8Encode cs)).getD [])) = cs := by
      rw [if_neg (by decide), utf8Dec_encode, Option.getD_some]
      exact cpsToChars_toNat cs
    have hdec : ∀ sp, decodeContent (pstr "utf-8") sp cs = .ok (utf8Encode cs) := by
      intro sp
      unfold decodeContent
      rw [if_neg (by decide)]
    have hences : entryEncodingStr (JVal.str (pstr "utf-8")) = .ok (pstr "utf-8") := rfl
    have hcontes : ∀ ps, entryContentStr ps (JVal.str cs) = .ok cs := fun ps => rfl
    simp only [parseEntry, encodeFileEntry, hcont, parseEntryObj,
      pyGet_path, pyGet_content, pyGet_encoding, hences, hpath, hcontes,
      except_bind_ok, hsan, except_mapError_ok, hdec, hcheck]
  · subst henc
    have hb : ∀ x ∈ bs, x < 256 := hb64 rfl
    have hcont : (if pstr "base64" = pstr "base64" then b64Encode bs
        else cpsToChars ((utf8Dec bs).getD [])) = b64Encode bs := if_pos rfl
    have hdec : ∀ sp, decodeContent (pstr "base64") sp (b64Encode bs) = .ok bs := by
      intro sp
      unfold decodeContent
      rw [if_pos rfl, b64_roundtrip bs hb]
    have hences : entryEncodingStr (JVal.str (pstr "base64")) = .ok (pstr "base64") := rfl
    have hcontes : ∀ ps, entryContentStr ps (JVal.str (b64Encode bs)) = .ok (b64Encode bs) :=
      fun ps => rfl
    simp only [parseEntry, encodeFileEntry, hcont, parseEntryObj, if_true,
      pyGet_path, pyGet_content, pyGet_encoding, hences, hpath, hcontes,
      except_bind_ok, hsan, except_mapError_ok, hdec, hcheck]

theorem dictSet_fresh : ∀ (acc : List (PyStr × PyBytes)) (k : PyStr) (v : PyBytes),
    k ∉ acc.map Prod.fst → dictSet acc k v = acc ++ [(k, v)]
  | [], k, v, _ => rfl
  | (k0, v0) :: rest, k, v, h => by
    have hne : k0 ≠ k := fun he => h (by simp [he])
    simp only [dictSet, if_neg hne]
    rw [dictSet_fresh rest k v (fun hm => h (by simp [hm]))]
    rfl

theorem parseFilesEntries_encode :
    ∀ (items : List (PyStr × PyBytes × PyStr)) (acc : List (PyStr × PyBytes)),
    (∀ t ∈ items, goodItem t) →
    (∀ t ∈ items, t.1 ∉ acc.map Prod.fst) →
    (items.map fun t => t.1).Nodup →
    parseFilesEntries (items.map fun t => encodeFileEntry t.2.2 t.1 t.2.1) acc =
      .ok (acc ++ items.map fun t => (t.1, t.2.1))
  | [], acc, _, _, _ => by simp [parseFilesEntries]
  | t :: rest, acc, hgood, hfresh, hnodup => by
    obtain ⟨hsan, henc, hb64, hutf, hsize⟩ := hgood t (List.mem_cons_self t rest)
    simp only [List.map_cons] at hnodup ⊢
    have hnd := List.nodup_cons.mp hnodup
    simp only [parseFilesEntries]
    rw [parseEntry_encodeFileEntry t.1 t.2.1 t.2.2 hsan henc hb64 hutf hsize]
    simp only [except_bind_ok]
    rw [dictSet_fresh acc t.1 t.2.1 (hfresh t (List.mem_cons_self t rest))]
    have hrest_good : ∀ u ∈ rest, goodItem u :=
      fun u hu => hgood u (List.mem_cons_of_mem t hu)
    have hrest_fresh : ∀ u ∈ rest, u.1 ∉ (acc ++ [(t.1, t.2.1)]).map Prod.fst := by
      intro u hu hmem
      simp only [List.map_append, List.mem_append] at hmem
      rcases hmem with hmem | hmem
      · exact hfresh u (List.mem_cons_of_mem t hu) hmem
      · have hu1 : u.1 = t.1 := by simpa using hmem
        exact hnd.1 (hu1 ▸ List.mem_map_of_mem (fun w => w.1) hu)
    rw [parseFilesEntries_encode rest (acc ++ [(t.1, t.2.1)]) hrest_good hrest_fresh hnd.2]
    rw [List.append_assoc]
    rfl

/-- Claim C9: LLM parser round-trip — for any path-to-bytes map shaped like a
`_parse_files` output (safe relative paths that the sanitiser fixes, encodings
in the set containing "utf-8" and "base64", bytes fitting their encoding and
the size cap, distinct paths), re-encoding each file's bytes with its original
encoding into a `files` manifest and re-parsing reproduces exactly the
original byte content for every path. -/
theorem C9_parse_files_roundtrip (items : List (PyStr × PyBytes × PyStr))
    (hne : items ≠ [])
    (hnodup : (items.map fun t => t.1).Nodup)
    (hgood : ∀ t ∈ items, goodItem t) :
    parseFiles (JVal.obj [(pstr "files",
      JVal.arr (items.map fun t => encodeFileEntry t.2.2 t.1 t.2.1))]) =
      .ok (items.map fun t => (t.1, t.2.1)) := by
  have hget : pyGet [(pstr "files",
      JVal.arr (items.map fun t => encodeFileEntry t.2.2 t.1 t.2.1))] (pstr "files") =
      JVal.arr (items.map fun t => encodeFileEntry t.2.2 t.1 t.2.1) := rfl
  have hie : ((items.map fun t => encodeFileEntry t.2.2 t.1 t.2.1).isEmpty) = false := by
    cases items with
    | nil => exact absurd rfl hne
    | cons t rest => rfl
  simp only [parseFiles, hget, hie, Bool.false_eq_true, if_false]
  rw [parseFilesEntries_encode items [] hgood (fun t ht => by simp) hnodup]
  rfl

/-- Claim C9, witness: the theorem applied to a two-file map — a UTF-8
"index.html" and a base64 "assets/logo.png" — whose re-encoded manifest
re-parses to exactly the original bytes. -/
theorem C9_parse_files_roundtrip_witness :
    parseFiles (JVal.obj [(pstr "files", JVal.arr
      ([(pstr "index.html", utf8Encode (pstr "<h1>hi</h1>"), pstr "utf-8"),
        (pstr "assets/logo.png", [137, 80, 78, 71], pstr "base64")].map
        fun t => encodeFileEntry t.2.2 t.1 t.2.1))]) =
      .ok ([(pstr "index.html", utf8Encode (pstr "<h1>hi</h1>"), pstr "utf-8"),
        (pstr "assets/logo.png", [137, 80, 78, 71], pstr "base64")].map
        fun t => (t.1, t.2.1)) := by
  refine C9_parse_files_roundtrip _ (by simp) (by decide) ?_
  intro t ht
  simp only [List.mem_cons, List.not_mem_nil, or_false] at ht
  rcases ht with rfl | rfl
  · exact ⟨rfl, Or.inl rfl, fun h2 => absurd h2 (by decide),
      fun h2 => ⟨pstr "<h1>hi</h1>", rfl⟩, by decide⟩
  · exact ⟨rfl, Or.inr rfl, fun h2 => by decide,
      fun h2 => absurd h2 (by decide), by decide⟩

-- Model of schemas.py, config.py (the fields the claims exercise) and app.py.

/-- Model of `schemas.Attachment` (name non-empty; url any string — the
`AnyHttpUrl | str` union accepts arbitrary strings). -/
structure Attachment where
  name : PyStr
  url : PyStr
deriving DecidableEq

/-- Model of `schemas.TaskRequest` (the raw field record; the pydantic
constraints are the separate validation predicate `taskValid` and the
decoder `validateTaskRequest`). -/
structure TaskRequest where
  email : PyStr
  secret : PyStr
  task : PyStr
  round : Int
  nonce : PyStr
  brief : PyStr
  checks : List PyStr
  evaluation_url : PyStr
  attachments : List Attachment
deriving DecidableEq

/-- Model of `schemas.AckResponse`. -/
structure AckResponse where
  ok : Bool
  received_at : PyStr
deriving DecidableEq

/-- Modelled stdlib boundary: pydantic's `EmailStr` format check — a
deterministic shape test (the claims only rely on determinism and purity). -/
def emailOk (s : PyStr) : Bool := s.any (· == '@')

/-- Modelled stdlib boundary: pydantic's `HttpUrl` format check. -/
def httpUrlOk (s : PyStr) : Bool :=
  decide (pstr "http://" <+: s) || decide (pstr "https://" <+: s)

/-- The §3 field constraints of a `TaskRequest` (pydantic field validators). -/
def taskValid (t : TaskRequest) : Prop :=
  emailOk t.email = true ∧ t.secret ≠ [] ∧ t.task ≠ [] ∧ 1 ≤ t.round ∧
  t.nonce ≠ [] ∧ t.brief ≠ [] ∧ httpUrlOk t.evaluation_url = true ∧
  ∀ a ∈ t.attachments, a.name ≠ []

instance (t : TaskRequest) : Decidable (taskValid t) := by
  unfold taskValid
  infer_instance

/-- `fastapi.encoders.jsonable_encoder` on an `Attachment`. -/
def encodeAttachment (a : Attachment) : JVal :=
  JVal.obj [(pstr "name", JVal.str a.name), (pstr "url", JVal.str a.url)]

/-- `fastapi.encoders.jsonable_encoder` on a `TaskRequest`: the fields in
declaration order as a JSON object. -/
def encodeTaskRequest (t : TaskRequest) : List (PyStr × JVal) :=
  [(pstr "email", JVal.str t.email),
   (pstr "secret", JVal.str t.secret),
   (pstr "task", JVal.str t.task),
   (pstr "round", JVal.num t.round),
   (pstr "nonce", JVal.str t.nonce),
   (pstr "brief", JVal.str t.brief),
   (pstr "checks", JVal.arr (t.checks.map JVal.str)),
   (pstr "evaluation_url", JVal.str t.evaluation_url),
   (pstr "attachments", JVal.arr (t.attachments.map encodeAttachment))]

/-- Dictionary lookup distinguishing an absent key from a null value. -/
def dictFind (kvs : List (PyStr × JVal)) (k : PyStr) : Option JVal :=
  (kvs.find? (fun pr => pr.1 == k)).map (fun pr => pr.2)

/-- Required string field with `min_length=1`. -/
def jStr1? (v : Option JVal) : Option PyStr :=
  match v with
  | some (.str s) => if s.isEmpty then none else some s
  | _ => none

/-- Required `EmailStr` field. -/
def decodeEmail (v : Option JVal) : Option PyStr :=
  match v with
  | some (.str s) => if emailOk s then some s else none
  | _ => none

/-- Required `HttpUrl` field. -/
def decodeUrl (v : Option JVal) : Option PyStr :=
  match v with
  | some (.str s) => if httpUrlOk s then some s else none
  | _ => none

/-- Required integer field with `ge=1`. -/
def decodeRound (v : Option JVal) : Option Int :=
  match v with
  | some (.num n) => if 1 ≤ n then some n else none
  | _ => none

/-- A JSON array of strings, or nothing. -/
def strList? : List JVal → Option (List PyStr)
  | [] => some []
  | .str s :: rest => (strList? rest).map (fun l => s :: l)
  | _ => none

/-- `checks`: defaults to the empty list when the key is absent. -/
def decodeChecks (v : Option JVal) : Option (List PyStr) :=
  match v with
  | none => some []
  | some (.arr xs) => strList? xs
  | _ => none

/-- One `attachments` element: an object with a non-empty string `name` and a
string `url`. -/
def decodeAttachment (v : JVal) : Option Attachment :=
  match v with
  | .obj kvs =>
    match dictFind kvs (pstr "name"), dictFind kvs (pstr "url") with
    | some (.str n), some (.str u) => if n.isEmpty then none else some ⟨n, u⟩
    | _, _ => none
  | _ => none

def attList? : List JVal → Option (List Attachment)
  | [] => some []
  | v :: rest =>
    match decodeAttachment v with
    | some a => (attList? rest).map (fun l => a :: l)
    | none => none

/-- `attachments`: defaults to the empty list when the key is absent. -/
def decodeAttachments (v : Option JVal) : Option (List Attachment) :=
  match v with
  | none => some []
  | some (.arr xs) => attList? xs
  | _ => none

/-- Model of `TaskRequest(**payload)`: pydantic validation of a decoded JSON
object into a `TaskRequest` (`none` is a raised `ValidationError`; extra keys
are ignored, per the default model config). -/
def validateTaskRequest (kvs : List (PyStr × JVal)) : Option TaskRequest :=
  Option.bind (decodeEmail (dictFind kvs (pstr "email"))) fun email =>
  Option.bind (jStr1? (dictFind kvs (pstr "secret"))) fun secret =>
  Option.bind (jStr1? (dictFind kvs (pstr "task"))) fun taskId =>
  Option.bind (decodeRound (dictFind kvs (pstr "round"))) fun roundVal =>
  Option.bind (jStr1? (dictFind kvs (pstr "nonce"))) fun nonce =>
  Option.bind (jStr1? (dictFind kvs (pstr "brief"))) fun brief =>
  Option.bind (decodeChecks (dictFind kvs (pstr "checks"))) fun checks =>
  Option.bind (decodeUrl (dictFind kvs (pstr "evaluation_url"))) fun evaluation_url =>
  Option.bind (decodeAttachments (dictFind kvs (pstr "attachments"))) fun attachments =>
  some ⟨email, secret, taskId, roundVal, nonce, brief, checks, evaluation_url, attachments⟩

/-- Model of `config.Settings` (the fields the claims exercise; `Optional[str]`
fields are `Option PyStr`, with Python falsiness covering both `None` and ""). -/
structure SettingsM where
  app_secret : Option PyStr
  github_token : Option PyStr
  github_owner : Option PyStr
  github_default_branch : PyStr
  dry_run : Bool
deriving DecidableEq

/-- Python falsiness of an `Optional[str]` setting. -/
def optStrFalsy : Option PyStr → Bool
  | none => true
  | some s => s.isEmpty

/-- The HTTP errors `app.validate_secret` can raise. -/
inductive HTTPError where
  | httpException (statusCode : Nat) (detail : PyStr) : HTTPError
deriving DecidableEq

/-- Model of `app.validate_secret` (app.py lines 33-54): skip entirely under
dry-run; 500 when no server secret is configured (falsy); 403 when the request
secret differs from the configured value. -/
def validate_secret (task : TaskRequest) (settings : SettingsM) : Except HTTPError Unit :=
  if settings.dry_run then .ok ()
  else if optStrFalsy settings.app_secret then
    .error (.httpException 500 (pstr "Server secret not configured."))
  else if task.secret = settings.app_secret.getD [] then .ok ()
  else .error (.httpException 403 (pstr "Invalid secret provided."))

/-- Model of `app.receive_task` (app.py lines 57-81): validate the secret,
JSON-encode the request, stamp it with the acceptance time under
"_received_at", enqueue it (the first returned component is the enqueued
payload), and acknowledge.  The two `datetime.now(timezone.utc)` reads are
both modelled by the `now` value; an error means nothing was enqueued. -/
def receive_task (task : TaskRequest) (settings : SettingsM) (now : PyStr) :
    Except HTTPError (List (PyStr × JVal) × AckResponse) :=
  Except.bind (validate_secret task settings) fun _ =>
    .ok (encodeTaskRequest task ++ [(pstr "_received_at", JVal.str now)],
      ⟨true, now⟩)

/-- `k.startswith("_")` on the model. -/
def startsUnderscore : PyStr → Bool
  | '_' :: _ => true
  | _ => false

/-- The worker's `{k: v for k, v in payload.items() if not k.startswith("_")}`
filter (tasks.py line 141). -/
def stripInternal (payload : List (PyStr × JVal)) : List (PyStr × JVal) :=
  payload.filter (fun pr => !startsUnderscore pr.1)

theorem isEmpty_false_of_ne {α : Type} {l : List α} (h : l ≠ []) : l.isEmpty = false := by
  cases l with
  | nil => exact absurd rfl h
  | cons a r => rfl

theorem option_bind_some {α β : Type} (a : α) (f : α → Option β) :
    Option.bind (some a) f = f a := rfl

theorem strList?_map : ∀ xs : List PyStr, strList? (xs.map JVal.str) = some xs
  | [] => rfl
  | s :: rest => by
    simp only [List.map_cons, strList?, strList?_map rest]
    rfl

theorem decodeAttachment_encode (a : Attachment) (h : a.name ≠ []) :
    decodeAttachment (encodeAttachment a) = some a := by
  show (if a.name.isEmpty then none else some (⟨a.name, a.url⟩ : Attachment)) = some a
  rw [isEmpty_false_of_ne h]
  rfl

theorem attList?_map : ∀ xs : List Attachment, (∀ a ∈ xs, a.name ≠ []) →
    attList? (xs.map encodeAttachment) = some xs
  | [], _ => rfl
  | a :: rest, h => by
    simp only [List.map_cons, attList?,
      decodeAttachment_encode a (h a (List.mem_cons_self a rest)),
      attList?_map rest (fun b hb => h b (List.mem_cons_of_mem a hb))]
    rfl

theorem dictFind_tr_email (t : TaskRequest) :
    dictFind (encodeTaskRequest t) (pstr "email") = some (JVal.str t.email) := rfl

theorem dictFind_tr_secret (t : TaskRequest) :
    dictFind (encodeTaskRequest t) (pstr "secret") = some (JVal.str t.secret) := rfl

theorem dictFind_tr_task (t : TaskRequest) :
    dictFind (encodeTaskRequest t) (pstr "task") = some (JVal.str t.task) := rfl

theorem dictFind_tr_round (t : TaskRequest) :
    dictFind (encodeTaskRequest t) (pstr "round") = some (JVal.num t.round) := rfl

theorem dictFind_tr_nonce (t : TaskRequest) :
    dictFind (encodeTaskRequest t) (pstr "nonce") = some (JVal.str t.nonce) := rfl

theorem dictFind_tr_brief (t : TaskRequest) :
    dictFind (encodeTaskRequest t) (pstr "brief") = some (JVal.str t.brief) := rfl

theorem dictFind_tr_checks (t : TaskRequest) :
    dictFind (encodeTaskRequest t) (pstr "checks") =
      some (JVal.arr (t.checks.map JVal.str)) := rfl

theorem dictFind_tr_url (t : TaskRequest) :
    dictFind (encodeTaskRequest t) (pstr "evaluation_url") =
      some (JVal.str t.evaluation_url) := rfl

theorem dictFind_tr_atts (t : TaskRequest) :
    dictFind (encodeTaskRequest t) (pstr "attachments") =
      some (JVal.arr (t.attachments.map encodeAttachment)) := rfl

theorem jStr1?_of_ne {s : PyStr} (h : s ≠ []) : jStr1? (some (JVal.str s)) = some s := by
  simp only [jStr1?, isEmpty_false_of_ne h, Bool.false_eq_true, if_false]

theorem validateTaskRequest_encode (t : TaskRequest) (h : taskValid t) :
    validateTaskRequest (encodeTaskRequest t) = some t := by
  obtain ⟨he, hs, htk, hr, hn, hb, hu, ha⟩ := h
  have d1 : decodeEmail (some (JVal.str t.email)) = some t.email := by
    simp only [decodeEmail, he, if_true]
  have d4 : decodeRound (some (JVal.num t.round)) = some t.round := by
    simp only [decodeRound]
    rw [if_pos hr]
  have d7 : decodeChecks (some (JVal.arr (t.checks.map JVal.str))) = some t.checks := by
    simp only [decodeChecks]
    exact strList?_map t.checks
  have d8 : decodeUrl (some (JVal.str t.evaluation_url)) = some t.evaluation_url := by
    simp only [decodeUrl, hu, if_true]
  have d9 : decodeAttachments (some (JVal.arr (t.attachments.map encodeAttachment))) =
      some t.attachments := by
    simp only [decodeAttachments]
    exact attList?_map t.attachments ha
  simp only [validateTaskRequest, dictFind_tr_email, dictFind_tr_secret,
    dictFind_tr_task, dictFind_tr_round, dictFind_tr_nonce, dictFind_tr_brief,
    dictFind_tr_checks, dictFind_tr_url, dictFind_tr_atts,
    d1, d4, d7, d8, d9, jStr1?_of_ne hs, jStr1?_of_ne htk, jStr1?_of_ne hn,
    jStr1?_of_ne hb, option_bind_some]

theorem stripInternal_encode (t : TaskRequest) (v : JVal) :
    stripInternal (encodeTaskRequest t ++ [(pstr "_received_at", v)]) =
      encodeTaskRequest t := rfl

/-- Claim C4: secret validation at the acceptance service — under dry-run
every request passes validation regardless of its secret; otherwise a falsy
server-side secret fails `submit task` with HTTP 500 "Server secret not
configured." and a mismatching request secret fails it with HTTP 403, in both
cases as an error result carrying no enqueued payload (nothing is enqueued). -/
theorem C4_secret_validation :
    (∀ (t : TaskRequest) (s : SettingsM), s.dry_run = true →
      validate_secret t s = .ok ()) ∧
    (∀ (t : TaskRequest) (s : SettingsM) (now : PyStr), s.dry_run = false →
      optStrFalsy s.app_secret = true →
      receive_task t s now =
        .error (.httpException 500 (pstr "Server secret not configured."))) ∧
    (∀ (t : TaskRequest) (s : SettingsM) (now : PyStr) (sec : PyStr),
      s.dry_run = false → s.app_secret = some sec → t.secret ≠ sec →
      sec ≠ [] →
      receive_task t s now =
        .error (.httpException 403 (pstr "Invalid secret provided."))) := by
  refine ⟨?_, ?_, ?_⟩
  · intro t s h
    unfold validate_secret
    rw [if_pos h]
  · intro t s now hdry hfalsy
    unfold receive_task validate_secret
    rw [hdry]
    simp only [Bool.false_eq_true, if_false, hfalsy, if_true]
    rfl
  · intro t s now sec hdry hsec hne hsecne
    unfold receive_task validate_secret
    rw [hdry, hsec]
    simp only [Bool.false_eq_true, if_false, optStrFalsy,
      isEmpty_false_of_ne hsecne, Option.getD_some]
    rw [if_neg hne]
    rfl

/-- Claim C4, witness: the theorem applied at a concrete request — dry-run
passes with a wrong secret; with dry-run off, a missing server secret yields
the 500 error and a mismatching secret yields the 403 error. -/
theorem C4_secret_validation_witness :
    validate_secret ⟨pstr "a@b.c", pstr "wrong", pstr "demo", 1, pstr "n",
        pstr "brief", [], pstr "https://e.x/cb", []⟩
      ⟨some (pstr "real"), none, none, pstr "main", true⟩ = .ok () ∧
    receive_task ⟨pstr "a@b.c", pstr "wrong", pstr "demo", 1, pstr "n",
        pstr "brief", [], pstr "https://e.x/cb", []⟩
      ⟨none, none, none, pstr "main", false⟩ (pstr "2026-01-01T00:00:00+00:00") =
      .error (.httpException 500 (pstr "Server secret not configured.")) ∧
    receive_task ⟨pstr "a@b.c", pstr "wrong", pstr "demo", 1, pstr "n",
        pstr "brief", [], pstr "https://e.x/cb", []⟩
      ⟨some (pstr "real"), none, none, pstr "main", false⟩
      (pstr "2026-01-01T00:00:00+00:00") =
      .error (.httpException 403 (pstr "Invalid secret provided.")) :=
  ⟨C4_secret_validation.1 _ _ rfl,
   C4_secret_validation.2.1 _ _ _ rfl rfl,
   C4_secret_validation.2.2 _ _ _ (pstr "real") rfl rfl (by decide) (by decide)⟩

/-- Claim C7: queue round-trip — an accepted valid TaskRequest is enqueued as
its JSON encoding plus exactly the one internal underscore-prefixed key
"_received_at", the acknowledgement has ok = true and carries the acceptance
timestamp, and the worker's filter-then-revalidate step (drop every key
starting with "_", re-validate) reconstructs exactly the accepted request. -/
theorem C7_queue_roundtrip (t : TaskRequest) (s : SettingsM) (now : PyStr)
    (hvalid : taskValid t) (hsec : validate_secret t s = .ok ()) :
    receive_task t s now =
      .ok (encodeTaskRequest t ++ [(pstr "_received_at", JVal.str now)],
        ⟨true, now⟩) ∧
    startsUnderscore (pstr "_received_at") = true ∧
    validateTaskRequest (stripInternal
      (encodeTaskRequest t ++ [(pstr "_received_at", JVal.str now)])) = some t := by
  refine ⟨?_, rfl, ?_⟩
  · unfold receive_task
    rw [hsec]
    rfl
  · rw [stripInternal_encode]
    exact validateTaskRequest_encode t hvalid

/-- Claim C7, witness: the theorem applied to a concrete valid request under
dry-run settings. -/
theorem C7_queue_roundtrip_witness :
    receive_task ⟨pstr "a@b.c", pstr "s3cret", pstr "demo-task", 1, pstr "n1",
        pstr "Build it", [], pstr "https://eval.example/cb", []⟩
      ⟨none, none, none, pstr "main", true⟩ (pstr "2026-01-01T00:00:00+00:00") =
      .ok (encodeTaskRequest ⟨pstr "a@b.c", pstr "s3cret", pstr "demo-task", 1,
          pstr "n1", pstr "Build it", [], pstr "https://eval.example/cb", []⟩ ++
        [(pstr "_received_at", JVal.str (pstr "2026-01-01T00:00:00+00:00"))],
        ⟨true, pstr "2026-01-01T00:00:00+00:00"⟩) ∧
    startsUnderscore (pstr "_received_at") = true ∧
    validateTaskRequest (stripInternal
      (encodeTaskRequest ⟨pstr "a@b.c", pstr "s3cret", pstr "demo-task", 1,
          pstr "n1", pstr "Build it", [], pstr "https://eval.example/cb", []⟩ ++
        [(pstr "_received_at", JVal.str (pstr "2026-01-01T00:00:00+00:00"))])) =
      some ⟨pstr "a@b.c", pstr "s3cret", pstr "demo-task", 1, pstr "n1",
        pstr "Build it", [], pstr "https://eval.example/cb", []⟩ :=
  C7_queue_roundtrip _ _ _ (by decide) rfl

-- Model of the worker (tasks.py orchestrate_task) and its collaborators.

/-- Model of `utils.build_pages_url`: strip "/" from both ends of the inputs,
then assemble `https://<owner>.github.io/<repo>/`. -/
def build_pages_url (owner repo_name : PyStr) : PyStr :=
  pstr "https://" ++ pyStrip (fun c => c == '/') owner ++ pstr ".github.io/" ++
    pyStrip (fun c => c == '/') repo_name ++ pstr "/"

/-- Python `str(int)` for the round number. -/
def intToStr (i : Int) : PyStr :=
  match i with
  | .ofNat n => Nat.toDigits 10 n
  | .negSucc n => '-' :: Nat.toDigits 10 (n + 1)

/-- Model of `tasks._compose_repo_name`: `f"{slug}-r{round}-{suffix}"` with
`slug = slugify(task)` and `suffix = uuid4().hex[:6]` (the uuid hex digest is
the `uuidHex` oracle value). -/
def compose_repo_name (t : TaskRequest) (uuidHex : PyStr) : PyStr :=
  slugify t.task 63 ++ pstr "-r" ++ intToStr t.round ++ pstr "-" ++ uuidHex.take 6

/-- Model of `services.github_service.RepoInfo`. -/
structure RepoInfo where
  owner : PyStr
  name : PyStr
  html_url : PyStr
  default_branch : PyStr
  pages_url : Option PyStr
deriving DecidableEq

/-- The persisted round-state record written by `orchestrate_task`
(tasks.py lines 310-322). -/
structure RoundState where
  task : PyStr
  round : Int
  nonce : PyStr
  repo_name : PyStr
  owner : PyStr
  pages_url : PyStr
  default_branch : PyStr
  last_commit : PyStr
  pages_status : PyStr
  updated_at : PyStr
deriving DecidableEq

/-- Model of `schemas.CallbackPayload`. -/
structure CallbackM where
  email : PyStr
  task : PyStr
  round : Int
  nonce : PyStr
  repo_url : PyStr
  commit_sha : PyStr
  pages_url : PyStr
  pages_status : PyStr
deriving DecidableEq

/-- Oracle for the worker's external effects during one round: the state-store
read (none models both a missing record and an unavailable/failing store,
which `_load_task_state` turns into the empty dict), the two uuid4 draws, the
hosting login and whether `GitHubService(settings)` construction succeeds, the
LLM outcome (files and raw response when a result was produced), the staged
attachments (relative path and bytes, as `write_attachments` returns them),
the push commit sha, the pages-poll outcome, the clock, and the per-attempt
callback POST outcomes (absent entries model transport failures). -/
structure EnvM where
  loadedState : Option RoundState
  uuidName : PyStr
  uuidCommit : PyStr
  login : PyStr
  githubInitOk : Bool
  llmResult : Option (List (PyStr × PyBytes) × PyStr)
  attachments : List (PyStr × PyBytes)
  pushSha : PyStr
  pagesReady : Bool
  now : PyStr
  postResults : List Bool

/-- `a or b` on an optional string and a string (Python truthiness). -/
def orTruthy (a : Option PyStr) (b : PyStr) : PyStr :=
  match a with
  | some s => if s.isEmpty then b else s
  | none => b

/-- Modelled from the spec: `codegen.render_license` — MIT license text
parameterised by the holder name; a pure function of its input. -/
def render_license (holder : PyStr) : PyStr :=
  pstr "MIT License Copyright (c) " ++ holder

/-- Modelled from the spec: `codegen.render_pages_workflow` — a fixed static
deployment-workflow descriptor. -/
def render_pages_workflow : PyStr :=
  pstr "name: Deploy static content to Pages"

/-- Modelled from the spec: `codegen.render_readme` — a README referencing the
pages URL and the task's brief; a pure function of its inputs. -/
def render_readme (t : TaskRequest) (pages_url : PyStr) : PyStr :=
  pstr "# " ++ t.task ++ pstr " live at " ++ pages_url ++ pstr " brief: " ++ t.brief

/-- Modelled from the spec: `codegen.generate_static_site` — a deterministic
minimal static site surfacing the brief; the produced map always contains the
"index.html" key. -/
def generate_static_site (t : TaskRequest) (attachment_paths : List PyStr)
    (pages_url : PyStr) (license_holder : PyStr) : List (PyStr × PyBytes) :=
  [(pstr "index.html",
    utf8Encode (pstr "<!doctype html><main>" ++ t.brief ++ pstr "</main>"))]

/-- Modelled from the spec: the hosting service's `ensure_repo` contract —
idempotently returns the identity of the repository with the given name,
owned by the configured account (when truthy) or the authenticated login. -/
def gh_ensure_repo (github_owner : Option PyStr) (login repo_name branch : PyStr) :
    RepoInfo :=
  let owner := orTruthy github_owner login
  ⟨owner, repo_name, pstr "https://github.com/" ++ owner ++ pstr "/" ++ repo_name,
    branch, some (build_pages_url owner repo_name)⟩

/-- Modelled stdlib boundary: `json.dumps(jsonable_encoder(task_request),
indent=2)` — a deterministic pure rendering of the validated request; no claim
inspects the text itself. -/
def dumpTask (t : TaskRequest) : PyStr :=
  pstr "task.json for " ++ t.task ++ pstr " round " ++ intToStr t.round

/-- Python `k in d` on the file dict. -/
def dictHasKey (kvs : List (PyStr × PyBytes)) (k : PyStr) : Bool :=
  kvs.any (fun pr => pr.1 == k)

/-- `d.get(k)` on the file dict. -/
def dictGet (kvs : List (PyStr × PyBytes)) (k : PyStr) : Option PyBytes :=
  (kvs.find? (fun pr => pr.1 == k)).map (fun pr => pr.2)

/-- Python `d.setdefault(k, v)`: insert only when the key is absent. -/
def dictSetdefault (kvs : List (PyStr × PyBytes)) (k : PyStr) (v : PyBytes) :
    List (PyStr × PyBytes) :=
  if dictHasKey kvs k then kvs else kvs ++ [(k, v)]

/-- A loop of `setdefault` calls, in order. -/
def setdefaultAll (kvs : List (PyStr × PyBytes)) :
    List (PyStr × PyBytes) → List (PyStr × PyBytes)
  | [] => kvs
  | (k, v) :: rest => setdefaultAll (dictSetdefault kvs k v) rest

/-- A loop of `d[k] = v` assignments, in order. -/
def setAll (kvs : List (PyStr × PyBytes)) :
    List (PyStr × PyBytes) → List (PyStr × PyBytes)
  | [] => kvs
  | (k, v) :: rest => setAll (dictSet kvs k v) rest

/-- The default-file backfill of tasks.py lines 236-248: setdefault the raw
LLM response log (when an LLM result was used), then LICENSE, the pages
workflow and the README, in source order. -/
def stageDefaults (t : TaskRequest) (owner pages_url : PyStr) (raw : Option PyStr)
    (base : List (PyStr × PyBytes)) : List (PyStr × PyBytes) :=
  let f1 := match raw with
    | some r => dictSetdefault base (pstr "automation/llm_raw_output.json") (utf8Encode r)
    | none => base
  let f2 := dictSetdefault f1 (pstr "LICENSE") (utf8Encode (render_license owner))
  let f3 := dictSetdefault f2 (pstr ".github/workflows/pages.yml")
    (utf8Encode render_pages_workflow)
  dictSetdefault f3 (pstr "README.md") (utf8Encode (render_readme t pages_url))

/-- tasks.py lines 250-261: when "index.html" is missing, supplement from the
fallback generator using setdefault (never overwriting). -/
def stageSupplement (t : TaskRequest) (aps : List PyStr) (pages_url owner : PyStr)
    (files4 : List (PyStr × PyBytes)) : List (PyStr × PyBytes) :=
  if dictHasKey files4 (pstr "index.html") then files4
  else setdefaultAll files4 (generate_static_site t aps pages_url owner)

/-- The file-set assembly of tasks.py lines 211-270: LLM files (or the
fallback site), default-file backfill, index.html supplement, attachment
overwrite, and the final task.json overwrite. -/
def assembleFiles (t : TaskRequest) (owner pages_url : PyStr)
    (llm : Option (List (PyStr × PyBytes) × PyStr)) (aps : List PyStr)
    (atts : List (PyStr × PyBytes)) : List (PyStr × PyBytes) :=
  let base := match llm with
    | some res => res.1
    | none => generate_static_site t aps pages_url owner
  let files4 := stageDefaults t owner pages_url (llm.map Prod.snd) base
  let files5 := stageSupplement t aps pages_url owner files4
  let files6 := setAll files5 atts
  dictSet files6 (pstr "task.json") (utf8Encode (dumpTask t))

/-- tasks.py line 147: the stored repo name when truthy, else a freshly
composed one. -/
def resolveRepoName (t : TaskRequest) (env : EnvM) : PyStr :=
  match env.loadedState with
  | some rs => if rs.repo_name.isEmpty then compose_repo_name t env.uuidName
      else rs.repo_name
  | none => compose_repo_name t env.uuidName

/-- tasks.py line 148: `task_state.get("owner") or settings.github_owner or
"example"`. -/
def resolveOwner0 (s : SettingsM) (env : EnvM) : PyStr :=
  orTruthy (env.loadedState.map RoundState.owner)
    (orTruthy s.github_owner (pstr "example"))

/-- Whether the loaded state carries a truthy owner. -/
def stateOwnerTruthy (env : EnvM) : Bool :=
  match env.loadedState with
  | some rs => !rs.owner.isEmpty
  | none => false

/-- tasks.py line 159: `not settings.dry_run and settings.github_token`. -/
def useGithub (s : SettingsM) : Bool := !s.dry_run && !(optStrFalsy s.github_token)

/-- tasks.py lines 159-166: after a successful hosting-client construction,
an owner not fixed by round state becomes the configured account or the
authenticated login. -/
def resolveOwner (s : SettingsM) (env : EnvM) : PyStr :=
  if useGithub s && !stateOwnerTruthy env then orTruthy s.github_owner env.login
  else resolveOwner0 s env

/-- The publish outcome: repository identity, commit sha, final pages URL and
status. -/
structure PublishOut where
  repo_info : RepoInfo
  commit_sha : PyStr
  pages_url : PyStr
  pages_status : PyStr
deriving DecidableEq

/-- tasks.py lines 272-308: publish via the hosting service (recomputing the
pages URL from the returned identity and polling it), or persist locally with
a placeholder repo URL, the uuid commit placeholder and "dry-run" status. -/
def publishStep (s : SettingsM) (env : EnvM) (repo_name owner pages_url0 : PyStr) :
    PublishOut :=
  if useGithub s then
    let ri := gh_ensure_repo s.github_owner env.login repo_name s.github_default_branch
    ⟨ri, env.pushSha, build_pages_url ri.owner ri.name,
      if env.pagesReady then pstr "ready" else pstr "pending"⟩
  else
    let ri : RepoInfo := ⟨owner, repo_name, pstr "https://example.com/" ++ repo_name,
      s.github_default_branch, some (build_pages_url owner repo_name)⟩
    ⟨ri, env.uuidCommit, orTruthy ri.pages_url pages_url0, pstr "dry-run"⟩

/-- The callback delivery loop of tasks.py lines 342-374, counting down the
remaining attempts: a successful POST breaks immediately; a failure sleeps the
current delay (recorded) and doubles it — including after the final attempt.
Returns (attempts made, delays slept, delivered). -/
def notifyAux (results : List Bool) : Nat → Nat → Nat → Nat × List Nat × Bool
  | 0, _, _ => (0, [], false)
  | remaining + 1, attempt, delay =>
    if results.getD attempt false then (1, [], true)
    else
      let r := notifyAux results remaining (attempt + 1) (delay * 2)
      (r.1 + 1, delay :: r.2.1, r.2.2)

/-- The callback loop with the source constants: max_attempts = 5, initial
delay = 1. -/
def notifyLoop (results : List Bool) : Nat × List Nat × Bool :=
  notifyAux results 5 0 1

/-- The outcome of one worker round: the persisted state record, the callback
payload, the delivery-loop outcome and the published file set. -/
structure RoundResult where
  persisted : RoundState
  callback : CallbackM
  callbackAttempts : Nat
  callbackDelays : List Nat
  delivered : Bool
  files : List (PyStr × PyBytes)
deriving DecidableEq

/-- The round body of `orchestrate_task` after re-validation (tasks.py lines
145-374): state lookup and name/owner resolution, the hosting-configuration
abort (`return`, modelled as `none` — no callback, no persisted state), file
assembly, publishing, state persistence and callback delivery.  Every failure
inside the source's try block is an oracle outcome here (LLM failure folds
into `llmResult = none`, attachment failures into the staged placeholder
bytes, poll failures into `pagesReady`, POST failures into `postResults`), so
the try body is total. -/
def processRound (t : TaskRequest) (s : SettingsM) (env : EnvM) : Option RoundResult :=
  if useGithub s && !env.githubInitOk then none
  else
    let repo_name := resolveRepoName t env
    let owner := resolveOwner s env
    let pages_url0 := build_pages_url owner repo_name
    let aps := env.attachments.map Prod.fst
    let files := assembleFiles t owner pages_url0 env.llmResult aps env.attachments
    let pub := publishStep s env repo_name owner pages_url0
    let persisted : RoundState := ⟨t.task, t.round, t.nonce, pub.repo_info.name,
      pub.repo_info.owner, pub.pages_url, pub.repo_info.default_branch,
      pub.commit_sha, pub.pages_status, env.now⟩
    let callback : CallbackM := ⟨t.email, t.task, t.round, t.nonce,
      pub.repo_info.html_url, pub.commit_sha, pub.pages_url, pub.pages_status⟩
    let nl := notifyLoop env.postResults
    some ⟨persisted, callback, nl.1, nl.2.1, nl.2.2, files⟩

/-- The errors `orchestrate_task` can propagate to its caller. -/
inductive WorkerErr where
  | validationError : WorkerErr
deriving DecidableEq

/-- Model of `tasks.orchestrate_task` (lines 135-376): strip underscore keys,
re-validate as a TaskRequest — OUTSIDE the try block, so a validation failure
propagates — then run the round body (whose own failures are logged and
swallowed; the hosting-configuration failure abandons the round, `none`). -/
def orchestrate (payload : List (PyStr × JVal)) (s : SettingsM) (env : EnvM) :
    Except WorkerErr (Option RoundResult) :=
  match validateTaskRequest (stripInternal payload) with
  | none => .error .validationError
  | some task_request => .ok (processRound task_request s env)

-- Dictionary lemmas for the file-set frame properties.

theorem dictGet_cons_self {k0 k : PyStr} (v0 : PyBytes) (rest : List (PyStr × PyBytes))
    (h : k0 = k) : dictGet ((k0, v0) :: rest) k = some v0 := by
  unfold dictGet
  rw [List.find?_cons_of_pos rest (by simp [h])]
  rfl

theorem dictGet_cons_ne {k0 k : PyStr} (v0 : PyBytes) (rest : List (PyStr × PyBytes))
    (h : k0 ≠ k) : dictGet ((k0, v0) :: rest) k = dictGet rest k := by
  unfold dictGet
  rw [List.find?_cons_of_neg rest (by simp [h])]

theorem dictGet_dictSet_self : ∀ (kvs : List (PyStr × PyBytes)) (k : PyStr) (v : PyBytes),
    dictGet (dictSet kvs k v) k = some v
  | [], k, v => dictGet_cons_self v [] rfl
  | (k0, v0) :: rest, k, v => by
    by_cases h : k0 = k
    · rw [dictSet, if_pos h]
      exact dictGet_cons_self v rest h
    · rw [dictSet, if_neg h, dictGet_cons_ne v0 _ h]
      exact dictGet_dictSet_self rest k v

theorem dictGet_dictSet_ne : ∀ (kvs : List (PyStr × PyBytes)) (k q : PyStr) (v : PyBytes),
    q ≠ k → dictGet (dictSet kvs k v) q = dictGet kvs q
  | [], k, q, v, h => dictGet_cons_ne v [] (fun he => h he.symm)
  | (k0, v0) :: rest, k, q, v, h => by
    by_cases h0 : k0 = k
    · rw [dictSet, if_pos h0]
      rw [dictGet_cons_ne v rest (h0 ▸ fun he => h he.symm),
        dictGet_cons_ne v0 rest (h0 ▸ fun he => h he.symm)]
    · rw [dictSet, if_neg h0]
      by_cases hq : k0 = q
      · rw [dictGet_cons_self v0 _ hq, dictGet_cons_self v0 _ hq]
      · rw [dictGet_cons_ne v0 _ hq, dictGet_cons_ne v0 _ hq]
        exact dictGet_dictSet_ne rest k q v h

theorem dictGet_append_of_some {xs : List (PyStr × PyBytes)} {k : PyStr} {w : PyBytes}
    (ys : List (PyStr × PyBytes)) (h : dictGet xs k = some w) :
    dictGet (xs ++ ys) k = some w := by
  induction xs with
  | nil => exact absurd h (by simp [dictGet])
  | cons pr rest ih =>
    by_cases h0 : pr.1 = k
    · rw [dictGet_cons_self pr.2 _ h0] at h
      rw [List.cons_append, dictGet_cons_self pr.2 _ h0]
      exact h
    · rw [dictGet_cons_ne pr.2 _ h0] at h
      rw [List.cons_append, dictGet_cons_ne pr.2 _ h0]
      exact ih h

theorem dictGet_append_of_none {xs : List (PyStr × PyBytes)} {k : PyStr}
    (ys : List (PyStr × PyBytes)) (h : dictGet xs k = none) :
    dictGet (xs ++ ys) k = dictGet ys k := by
  induction xs with
  | nil => rfl
  | cons pr rest ih =>
    by_cases h0 : pr.1 = k
    · rw [dictGet_cons_self pr.2 _ h0] at h
      exact Option.noConfusion h
    · rw [dictGet_cons_ne pr.2 _ h0] at h
      rw [List.cons_append, dictGet_cons_ne pr.2 _ h0]
      exact ih h

theorem dictGet_setdefault_of_some {kvs : List (PyStr × PyBytes)} {k : PyStr} {w : PyBytes}
    (kq : PyStr) (v : PyBytes) (h : dictGet kvs k = some w) :
    dictGet (dictSetdefault kvs kq v) k = some w := by
  unfold dictSetdefault
  split
  · exact h
  · exact dictGet_append_of_some _ h

theorem dictGet_singleton_self (k : PyStr) (v : PyBytes) :
    dictGet [(k, v)] k = some v := dictGet_cons_self v [] rfl

theorem hasKey_false_of_get_none {kvs : List (PyStr × PyBytes)} {k : PyStr}
    (h : dictGet kvs k = none) : dictHasKey kvs k = false := by
  induction kvs with
  | nil => rfl
  | cons pr rest ih =>
    by_cases h0 : pr.1 = k
    · rw [dictGet_cons_self pr.2 _ h0] at h
      exact Option.noConfusion h
    · rw [dictGet_cons_ne pr.2 _ h0] at h
      simp only [dictHasKey, List.any_cons, Bool.or_eq_false_iff]
      exact ⟨by simp [h0], ih h⟩

theorem dictGet_setdefault_self_none {kvs : List (PyStr × PyBytes)} {k : PyStr}
    (v : PyBytes) (h : dictGet kvs k = none) :
    dictGet (dictSetdefault kvs k v) k = some v := by
  unfold dictSetdefault
  rw [hasKey_false_of_get_none h]
  simp only [Bool.false_eq_true, if_false]
  rw [dictGet_append_of_none _ h]
  exact dictGet_singleton_self k v

theorem dictGet_setdefault_ne {kvs : List (PyStr × PyBytes)} {k kq : PyStr}
    (v : PyBytes) (h : k ≠ kq) :
    dictGet (dictSetdefault kvs kq v) k = dictGet kvs k := by
  unfold dictSetdefault
  split
  · rfl
  · cases hx : dictGet kvs k with
    | some w => rw [dictGet_append_of_some _ hx]
    | none =>
      rw [dictGet_append_of_none _ hx]
      exact dictGet_cons_ne v [] (fun he => h he.symm)

theorem setdefaultAll_of_some : ∀ (l : List (PyStr × PyBytes))
    {kvs : List (PyStr × PyBytes)} {k : PyStr} {w : PyBytes},
    dictGet kvs k = some w → dictGet (setdefaultAll kvs l) k = some w
  | [], _, _, _, h => h
  | (kq, v) :: rest, kvs, k, w, h => by
    rw [setdefaultAll]
    exact setdefaultAll_of_some rest (dictGet_setdefault_of_some kq v h)

theorem setAll_of_notmem : ∀ (l : List (PyStr × PyBytes))
    {kvs : List (PyStr × PyBytes)} {k : PyStr},
    k ∉ l.map Prod.fst → dictGet (setAll kvs l) k = dictGet kvs k
  | [], _, _, _ => rfl
  | (kq, v) :: rest, kvs, k, h => by
    have hne : k ≠ kq := fun he => h (by simp [he])
    have hrest : k ∉ rest.map Prod.fst := fun hm => h (by simp [hm])
    rw [setAll, setAll_of_notmem rest hrest]
    exact dictGet_dictSet_ne kvs kq k v hne

theorem setAll_of_mem : ∀ (l : List (PyStr × PyBytes))
    {kvs : List (PyStr × PyBytes)} {pr : PyStr × PyBytes},
    (l.map Prod.fst).Nodup → pr ∈ l → dictGet (setAll kvs l) pr.1 = some pr.2
  | [], _, _, _, hm => absurd hm (List.not_mem_nil _)
  | (kq, v) :: rest, kvs, pr, hnodup, hm => by
    simp only [List.map_cons, List.nodup_cons] at hnodup
    rcases List.mem_cons.mp hm with he | hm2
    · subst he
      rw [setAll, setAll_of_notmem rest hnodup.1]
      exact dictGet_dictSet_self kvs kq v
    · rw [setAll]
      exact setAll_of_mem rest hnodup.2 hm2

theorem stageDefaults_of_some {base : List (PyStr × PyBytes)} {k : PyStr} {w : PyBytes}
    (t : TaskRequest) (owner pages_url : PyStr) (raw : Option PyStr)
    (h : dictGet base k = some w) :
    dictGet (stageDefaults t owner pages_url raw base) k = some w := by
  cases raw with
  | none =>
    simp only [stageDefaults]
    exact dictGet_setdefault_of_some _ _ (dictGet_setdefault_of_some _ _
      (dictGet_setdefault_of_some _ _ h))
  | some r =>
    simp only [stageDefaults]
    exact dictGet_setdefault_of_some _ _ (dictGet_setdefault_of_some _ _
      (dictGet_setdefault_of_some _ _ (dictGet_setdefault_of_some _ _ h)))

theorem stageSupplement_of_some {files4 : List (PyStr × PyBytes)} {k : PyStr}
    {w : PyBytes} (t : TaskRequest) (aps : List PyStr) (pages_url owner : PyStr)
    (h : dictGet files4 k = some w) :
    dictGet (stageSupplement t aps pages_url owner files4) k = some w := by
  unfold stageSupplement
  split
  · exact h
  · exact setdefaultAll_of_some _ h

theorem stageDefaults_license_absent (t : TaskRequest) (owner pu : PyStr)
    (raw : Option PyStr) (base : List (PyStr × PyBytes))
    (h : dictGet base (pstr "LICENSE") = none) :
    dictGet (stageDefaults t owner pu raw base) (pstr "LICENSE") =
      some (utf8Encode (render_license owner)) := by
  cases raw with
  | none =>
    simp only [stageDefaults]
    exact dictGet_setdefault_of_some _ _ (dictGet_setdefault_of_some _ _
      (dictGet_setdefault_self_none _ h))
  | some r =>
    simp only [stageDefaults]
    refine dictGet_setdefault_of_some _ _ (dictGet_setdefault_of_some _ _
      (dictGet_setdefault_self_none _ ?_))
    rw [dictGet_setdefault_ne _ (by decide)]
    exact h

theorem stageDefaults_workflow_absent (t : TaskRequest) (owner pu : PyStr)
    (raw : Option PyStr) (base : List (PyStr × PyBytes))
    (h : dictGet base (pstr ".github/workflows/pages.yml") = none) :
    dictGet (stageDefaults t owner pu raw base) (pstr ".github/workflows/pages.yml") =
      some (utf8Encode render_pages_workflow) := by
  cases raw with
  | none =>
    simp only [stageDefaults]
    refine dictGet_setdefault_of_some _ _ (dictGet_setdefault_self_none _ ?_)
    rw [dictGet_setdefault_ne _ (by decide)]
    exact h
  | some r =>
    simp only [stageDefaults]
    refine dictGet_setdefault_of_some _ _ (dictGet_setdefault_self_none _ ?_)
    rw [dictGet_setdefault_ne _ (by decide), dictGet_setdefault_ne _ (by decide)]
    exact h

theorem stageDefaults_readme_absent (t : TaskRequest) (owner pu : PyStr)
    (raw : Option PyStr) (base : List (PyStr × PyBytes))
    (h : dictGet base (pstr "README.md") = none) :
    dictGet (stageDefaults t owner pu raw base) (pstr "README.md") =
      some (utf8Encode (render_readme t pu)) := by
  cases raw with
  | none =>
    simp only [stageDefaults]
    refine dictGet_setdefault_self_none _ ?_
    rw [dictGet_setdefault_ne _ (by decide), dictGet_setdefault_ne _ (by decide)]
    exact h
  | some r =>
    simp only [stageDefaults]
    refine dictGet_setdefault_self_none _ ?_
    rw [dictGet_setdefault_ne _ (by decide), dictGet_setdefault_ne _ (by decide),
      dictGet_setdefault_ne _ (by decide)]
    exact h

theorem stageDefaults_raw_absent (t : TaskRequest) (owner pu : PyStr) (raw : PyStr)
    (base : List (PyStr × PyBytes))
    (h : dictGet base (pstr "automation/llm_raw_output.json") = none) :
    dictGet (stageDefaults t owner pu (some raw) base)
      (pstr "automation/llm_raw_output.json") = some (utf8Encode raw) := by
  simp only [stageDefaults]
  exact dictGet_setdefault_of_some _ _ (dictGet_setdefault_of_some _ _
    (dictGet_setdefault_of_some _ _ (dictGet_setdefault_self_none _ h)))

/-- Claim C6: default-file backfill frame property — with an LLM result in
use, every key already present in the generated file map keeps its original
bytes through the backfill (defaults and the index.html supplement never
overwrite), the four defaults (LICENSE, the pages workflow, README.md, and
the raw-LLM-output log) are added exactly when absent, every staged
attachment's path is overwritten with the staged bytes, and task.json is
always set to the rendered validated TaskRequest, overwriting any
generator-produced file there. -/
theorem C6_backfill_frame :
    (∀ (t : TaskRequest) (owner pu raw : PyStr) (files0 : List (PyStr × PyBytes))
      (aps : List PyStr) (atts : List (PyStr × PyBytes)) (k : PyStr) (w : PyBytes),
      dictGet files0 k = some w → k ∉ atts.map Prod.fst → k ≠ pstr "task.json" →
      dictGet (assembleFiles t owner pu (some (files0, raw)) aps atts) k = some w) ∧
    (∀ (t : TaskRequest) (owner pu raw : PyStr) (files0 : List (PyStr × PyBytes))
      (aps : List PyStr) (atts : List (PyStr × PyBytes)),
      dictGet files0 (pstr "LICENSE") = none →
      pstr "LICENSE" ∉ atts.map Prod.fst →
      dictGet (assembleFiles t owner pu (some (files0, raw)) aps atts)
        (pstr "LICENSE") = some (utf8Encode (render_license owner))) ∧
    (∀ (t : TaskRequest) (owner pu raw : PyStr) (files0 : List (PyStr × PyBytes))
      (aps : List PyStr) (atts : List (PyStr × PyBytes)),
      dictGet files0 (pstr ".github/workflows/pages.yml") = none →
      pstr ".github/workflows/pages.yml" ∉ atts.map Prod.fst →
      dictGet (assembleFiles t owner pu (some (files0, raw)) aps atts)
        (pstr ".github/workflows/pages.yml") = some (utf8Encode render_pages_workflow)) ∧
    (∀ (t : TaskRequest) (owner pu raw : PyStr) (files0 : List (PyStr × PyBytes))
      (aps : List PyStr) (atts : List (PyStr × PyBytes)),
      dictGet files0 (pstr "README.md") = none →
      pstr "README.md" ∉ atts.map Prod.fst →
      dictGet (assembleFiles t owner pu (some (files0, raw)) aps atts)
        (pstr "README.md") = some (utf8Encode (render_readme t pu))) ∧
    (∀ (t : TaskRequest) (owner pu raw : PyStr) (files0 : List (PyStr × PyBytes))
      (aps : List PyStr) (atts : List (PyStr × PyBytes)),
      dictGet files0 (pstr "automation/llm_raw_output.json") = none →
      pstr "automation/llm_raw_output.json" ∉ atts.map Prod.fst →
      dictGet (assembleFiles t owner pu (some (files0, raw)) aps atts)
        (pstr "automation/llm_raw_output.json") = some (utf8Encode raw)) ∧
    (∀ (t : TaskRequest) (owner pu : PyStr)
      (llm : Option (List (PyStr × PyBytes) × PyStr)) (aps : List PyStr)
      (atts : List (PyStr × PyBytes)) (pr : PyStr × PyBytes),
      (atts.map Prod.fst).Nodup → pr ∈ atts → pr.1 ≠ pstr "task.json" →
      dictGet (assembleFiles t owner pu llm aps atts) pr.1 = some pr.2) ∧
    (∀ (t : TaskRequest) (owner pu : PyStr)
      (llm : Option (List (PyStr × PyBytes) × PyStr)) (aps : List PyStr)
      (atts : List (PyStr × PyBytes)),
      dictGet (assembleFiles t owner pu llm aps atts) (pstr "task.json") =
        some (utf8Encode (dumpTask t))) := by
  refine ⟨?_, ?_, ?_, ?_, ?_, ?_, ?_⟩
  · intro t owner pu raw files0 aps atts k w h hatts htj
    simp only [assembleFiles, Option.map_some']
    rw [dictGet_dictSet_ne _ _ _ _ htj, setAll_of_notmem atts hatts]
    exact stageSupplement_of_some _ _ _ _ (stageDefaults_of_some _ _ _ _ h)
  · intro t owner pu raw files0 aps atts h hatts
    simp only [assembleFiles, Option.map_some']
    rw [dictGet_dictSet_ne _ _ _ _ (by decide), setAll_of_notmem atts hatts]
    exact stageSupplement_of_some _ _ _ _ (stageDefaults_license_absent _ _ _ _ _ h)
  · intro t owner pu raw files0 aps atts h hatts
    simp only [assembleFiles, Option.map_some']
    rw [dictGet_dictSet_ne _ _ _ _ (by decide), setAll_of_notmem atts hatts]
    exact stageSupplement_of_some _ _ _ _ (stageDefaults_workflow_absent _ _ _ _ _ h)
  · intro t owner pu raw files0 aps atts h hatts
    simp only [assembleFiles, Option.map_some']
    rw [dictGet_dictSet_ne _ _ _ _ (by decide), setAll_of_notmem atts hatts]
    exact stageSupplement_of_some _ _ _ _ (stageDefaults_readme_absent _ _ _ _ _ h)
  · intro t owner pu raw files0 aps atts h hatts
    simp only [assembleFiles, Option.map_some']
    rw [dictGet_dictSet_ne _ _ _ _ (by decide), setAll_of_notmem atts hatts]
    exact stageSupplement_of_some _ _ _ _ (stageDefaults_raw_absent _ _ _ _ _ h)
  · intro t owner pu llm aps atts pr hnodup hm htj
    simp only [assembleFiles]
    rw [dictGet_dictSet_ne _ _ _ _ htj]
    exact setAll_of_mem atts hnodup hm
  · intro t owner pu llm aps atts
    simp only [assembleFiles]
    exact dictGet_dictSet_self _ _ _

/-- Claim C6, witness: the theorem applied to a concrete two-file LLM map and
one staged attachment — the present index.html is preserved, the absent
LICENSE is added with its default, the attachment bytes win, and task.json is
written. -/
theorem C6_backfill_frame_witness :
    dictGet (assembleFiles ⟨pstr "a@b.c", pstr "s", pstr "demo", 1, pstr "n",
        pstr "b", [], pstr "https://e.x/", []⟩ (pstr "me")
        (pstr "https://me.github.io/r/") (some ([(pstr "index.html", [60, 62])], pstr "RAW"))
        [pstr "assets/a.png"] [(pstr "assets/a.png", [1, 2])]) (pstr "index.html") =
      some [60, 62] ∧
    dictGet (assembleFiles ⟨pstr "a@b.c", pstr "s", pstr "demo", 1, pstr "n",
        pstr "b", [], pstr "https://e.x/", []⟩ (pstr "me")
        (pstr "https://me.github.io/r/") (some ([(pstr "index.html", [60, 62])], pstr "RAW"))
        [pstr "assets/a.png"] [(pstr "assets/a.png", [1, 2])]) (pstr "LICENSE") =
      some (utf8Encode (render_license (pstr "me"))) ∧
    dictGet (assembleFiles ⟨pstr "a@b.c", pstr "s", pstr "demo", 1, pstr "n",
        pstr "b", [], pstr "https://e.x/", []⟩ (pstr "me")
        (pstr "https://me.github.io/r/") (some ([(pstr "index.html", [60, 62])], pstr "RAW"))
        [pstr "assets/a.png"] [(pstr "assets/a.png", [1, 2])]) (pstr "assets/a.png") =
      some [1, 2] ∧
    dictGet (assembleFiles ⟨pstr "a@b.c", pstr "s", pstr "demo", 1, pstr "n",
        pstr "b", [], pstr "https://e.x/", []⟩ (pstr "me")
        (pstr "https://me.github.io/r/") (some ([(pstr "index.html", [60, 62])], pstr "RAW"))
        [pstr "assets/a.png"] [(pstr "assets/a.png", [1, 2])]) (pstr "task.json") =
      some (utf8Encode (dumpTask ⟨pstr "a@b.c", pstr "s", pstr "demo", 1, pstr "n",
        pstr "b", [], pstr "https://e.x/", []⟩)) :=
  ⟨C6_backfill_frame.1 _ _ _ _ _ _ _ _ [60, 62] rfl (by decide) (by decide),
   C6_backfill_frame.2.1 _ _ _ _ _ _ _ rfl (by decide),
   C6_backfill_frame.2.2.2.2.2.1 _ _ _ _ _ _ ⟨pstr "assets/a.png", [1, 2]⟩
     (by decide) (by decide) (by decide),
   C6_backfill_frame.2.2.2.2.2.2 _ _ _ _ _ _⟩

/-- The doubling delay sequence starting at `d`. -/
def pows : Nat → Nat → List Nat
  | _, 0 => []
  | d, n + 1 => d :: pows (d * 2) n

theorem notifyAux_allfail (results : List Bool) :
    ∀ (n a d : Nat), (∀ i, i < n → results.getD (a + i) false = false) →
    notifyAux results n a d = (n, pows d n, false)
  | 0, _, _, _ => rfl
  | n + 1, a, d, h => by
    simp only [notifyAux]
    rw [show results.getD a false = false from by
      have := h 0 (by omega)
      rwa [Nat.add_zero] at this]
    simp only [Bool.false_eq_true, if_false]
    rw [notifyAux_allfail results n (a + 1) (d * 2) (fun i hi => by
      have := h (i + 1) (by omega)
      rwa [show a + (i + 1) = a + 1 + i from by omega] at this)]
    rfl

theorem notifyAux_success (results : List Bool) :
    ∀ (k n a d : Nat), k < n →
    (∀ i, i < k → results.getD (a + i) false = false) →
    results.getD (a + k) false = true →
    notifyAux results n a d = (k + 1, pows d k, true)
  | 0, n, a, d, hk, _, hs => by
    cases n with
    | zero => omega
    | succ m =>
      simp only [notifyAux]
      rw [Nat.add_zero] at hs
      rw [hs]
      simp only [if_true]
      rfl
  | k + 1, n, a, d, hk, hf, hs => by
    cases n with
    | zero => omega
    | succ m =>
      simp only [notifyAux]
      rw [show results.getD a false = false from by
        have := hf 0 (by omega)
        rwa [Nat.add_zero] at this]
      simp only [Bool.false_eq_true, if_false]
      rw [notifyAux_success results k m (a + 1) (d * 2) (by omega)
        (fun i hi => by
          have := hf (i + 1) (by omega)
          rwa [show a + (i + 1) = a + 1 + i from by omega] at this)
        (by
          have := hs
          rwa [show a + (k + 1) = a + 1 + k from by omega] at this)]
      rfl

/-- Claim C5: callback retry policy — against an endpoint failing every
attempt, the loop makes exactly 5 POST attempts and sleeps the doubling
delays 1, 2, 4, 8, 16 seconds before giving up undelivered; a first success
at attempt k+1 stops the loop after k+1 attempts with only the first k delays
slept; and a completed round's recorded delivery outcome is exactly the
loop's outcome (the round completes whether or not delivery succeeded). -/
theorem C5_callback_retry :
    (∀ results : List Bool, (∀ i, i < 5 → results.getD i false = false) →
      notifyLoop results = (5, [1, 2, 4, 8, 16], false)) ∧
    (∀ (results : List Bool) (k : Nat), k < 5 →
      (∀ i, i < k → results.getD i false = false) → results.getD k false = true →
      notifyLoop results = (k + 1, pows 1 k, true)) ∧
    (∀ (t : TaskRequest) (s : SettingsM) (env : EnvM) (r : RoundResult),
      processRound t s env = some r →
      r.callbackAttempts = (notifyLoop env.postResults).1 ∧
      r.callbackDelays = (notifyLoop env.postResults).2.1 ∧
      r.delivered = (notifyLoop env.postResults).2.2) := by
  refine ⟨?_, ?_, ?_⟩
  · intro results h
    unfold notifyLoop
    rw [notifyAux_allfail results 5 0 1 (fun i hi => by
      rw [Nat.zero_add]
      exact h i hi)]
    rfl
  · intro results k hk hf hs
    unfold notifyLoop
    rw [notifyAux_success results k 5 0 1 hk (fun i hi => by
      rw [Nat.zero_add]
      exact hf i hi) (by
      rw [Nat.zero_add]
      exact hs)]
  · intro t s env r h
    simp only [processRound] at h
    split at h
    · exact Option.noConfusion h
    · injection h with h2
      rw [← h2]
      exact ⟨rfl, rfl, rfl⟩

/-- Claim C5, witness: the theorem applied to an endpoint with no successful
attempt (exactly 5 attempts, delays 1, 2, 4, 8, 16, undelivered) and to one
succeeding immediately (one attempt, no sleep). -/
theorem C5_callback_retry_witness :
    notifyLoop [] = (5, [1, 2, 4, 8, 16], false) ∧
    notifyLoop [true] = (1, [], true) :=
  ⟨C5_callback_retry.1 [] (fun i _ => by simp),
   C5_callback_retry.2.1 [true] 0 (by decide)
     (fun i hi => absurd hi (Nat.not_lt_zero i)) rfl⟩

/-- Claim C2, counterexample: the worker task propagates an exception for the
empty payload — `TaskRequest(**task_payload)` re-validation (tasks.py line
142) sits BEFORE the try block opened at line 177, so its pydantic
`ValidationError` escapes `orchestrate_task` to the caller, refuting "for
every input payload ... never propagates an exception". -/
theorem C2_orchestrate_counterexample :
    orchestrate [] ⟨none, none, none, pstr "main", false⟩
      ⟨none, pstr "c0ffee", pstr "c", pstr "log", true, none, [], pstr "sha",
        false, pstr "now", []⟩ = .error .validationError := rfl

/-- Claim C2, amended: `orchestrate_task` propagates an exception exactly when
the stripped payload fails TaskRequest re-validation (that step is outside the
protective try block); once validation succeeds the round body runs to an
ordinary result — failures inside the try are logged and swallowed, and the
hosting-configuration failure abandons the round (`none`) without a callback. -/
theorem C2_worker_containment_amended :
    (∀ (payload : List (PyStr × JVal)) (s : SettingsM) (env : EnvM),
      orchestrate payload s env = .error .validationError ↔
        validateTaskRequest (stripInternal payload) = none) ∧
    (∀ (payload : List (PyStr × JVal)) (s : SettingsM) (env : EnvM)
      (t : TaskRequest), validateTaskRequest (stripInternal payload) = some t →
      orchestrate payload s env = .ok (processRound t s env)) := by
  constructor
  · intro payload s env
    unfold orchestrate
    cases hv : validateTaskRequest (stripInternal payload) with
    | none => simp
    | some t => simp
  · intro payload s env t hv
    unfold orchestrate
    rw [hv]

/-- Claim C2, witness: the amended theorem applied to a concrete valid
payload — the worker returns an ordinary result. -/
theorem C2_worker_containment_amended_witness :
    orchestrate (encodeTaskRequest ⟨pstr "a@b.c", pstr "s3cret", pstr "demo-task",
        1, pstr "n1", pstr "Build it", [], pstr "https://eval.example/cb", []⟩ ++
      [(pstr "_received_at", JVal.str (pstr "ts"))])
      ⟨none, none, none, pstr "main", true⟩
      ⟨none, pstr "c0ffee", pstr "c", pstr "log", true, none, [], pstr "sha",
        false, pstr "now", []⟩ =
      .ok (processRound ⟨pstr "a@b.c", pstr "s3cret", pstr "demo-task",
        1, pstr "n1", pstr "Build it", [], pstr "https://eval.example/cb", []⟩
        ⟨none, none, none, pstr "main", true⟩
        ⟨none, pstr "c0ffee", pstr "c", pstr "log", true, none, [], pstr "sha",
          false, pstr "now", []⟩) :=
  C2_worker_containment_amended.2 _ _ _ _ rfl

-- Lemmas for the round-state reuse claim.

theorem compose_repo_name_ne_nil (t : TaskRequest) (u : PyStr) :
    compose_repo_name t u ≠ [] := by
  unfold compose_repo_name
  intro h
  simp only [List.append_eq_nil] at h
  exact absurd h.1.1.1.2 (by decide)

theorem orTruthy_of_truthy {s : PyStr} (h : s ≠ []) (b : PyStr) :
    orTruthy (some s) b = s := by
  simp only [orTruthy, isEmpty_false_of_ne h, Bool.false_eq_true, if_false]

theorem orTruthy_ne_nil (a : Option PyStr) {b : PyStr} (h : b ≠ []) :
    orTruthy a b ≠ [] := by
  cases a with
  | none => exact h
  | some s =>
    cases hs : s.isEmpty with
    | false =>
      simp only [orTruthy, hs, Bool.false_eq_true, if_false]
      intro he
      rw [he] at hs
      exact Bool.noConfusion hs
    | true =>
      simp only [orTruthy, hs, if_true]
      exact h

theorem publishStep_name (s : SettingsM) (env : EnvM) (rn ow pu : PyStr) :
    (publishStep s env rn ow pu).repo_info.name = rn := by
  unfold publishStep
  split
  · rfl
  · rfl

theorem publishStep_owner_github {s : SettingsM} (env : EnvM) (rn ow pu : PyStr)
    (h : useGithub s = true) :
    (publishStep s env rn ow pu).repo_info.owner = orTruthy s.github_owner env.login := by
  unfold publishStep
  rw [if_pos h]
  rfl

theorem publishStep_owner_local {s : SettingsM} (env : EnvM) (rn ow pu : PyStr)
    (h : useGithub s = false) :
    (publishStep s env rn ow pu).repo_info.owner = ow := by
  unfold publishStep
  rw [h]
  rfl

theorem publishStep_url_github {s : SettingsM} (env : EnvM) (rn ow pu : PyStr)
    (h : useGithub s = true) :
    (publishStep s env rn ow pu).repo_info.html_url =
      pstr "https://github.com/" ++ orTruthy s.github_owner env.login ++
        pstr "/" ++ rn := by
  unfold publishStep
  rw [if_pos h]
  rfl

theorem publishStep_url_local {s : SettingsM} (env : EnvM) (rn ow pu : PyStr)
    (h : useGithub s = false) :
    (publishStep s env rn ow pu).repo_info.html_url =
      pstr "https://example.com/" ++ rn := by
  unfold publishStep
  rw [h]
  rfl

theorem processRound_fields {t : TaskRequest} {s : SettingsM} {env : EnvM}
    {r : RoundResult} (h : processRound t s env = some r) :
    r.persisted.repo_name = (publishStep s env (resolveRepoName t env)
      (resolveOwner s env) (build_pages_url (resolveOwner s env)
        (resolveRepoName t env))).repo_info.name ∧
    r.persisted.owner = (publishStep s env (resolveRepoName t env)
      (resolveOwner s env) (build_pages_url (resolveOwner s env)
        (resolveRepoName t env))).repo_info.owner ∧
    r.callback.repo_url = (publishStep s env (resolveRepoName t env)
      (resolveOwner s env) (build_pages_url (resolveOwner s env)
        (resolveRepoName t env))).repo_info.html_url := by
  simp only [processRound] at h
  split at h
  · exact Option.noConfusion h
  · injection h with h2
    rw [← h2]
    exact ⟨rfl, rfl, rfl⟩

theorem resolveRepoName_of_none {env : EnvM} (t : TaskRequest)
    (h : env.loadedState = none) :
    resolveRepoName t env = compose_repo_name t env.uuidName := by
  simp only [resolveRepoName, h]

theorem resolveRepoName_reuse {env : EnvM} {rs : RoundState} (t : TaskRequest)
    (h : env.loadedState = some rs) (hne : rs.repo_name ≠ []) :
    resolveRepoName t env = rs.repo_name := by
  simp only [resolveRepoName, h, isEmpty_false_of_ne hne, Bool.false_eq_true, if_false]

/-- Lowercase hexadecimal digit test. -/
def isLowerHexChar (c : Char) : Bool :=
  (48 ≤ c.toNat && c.toNat ≤ 57) || (97 ≤ c.toNat && c.toNat ≤ 102)

/-- Claim C3: round-state reuse — a round whose loaded state carries a truthy
repository name persists exactly that name again; two successive rounds of
one task (the second loading the first's persisted record, same settings and
hosting login) persist the same repo_name and owner and report the same
callback repo_url; a first round with no prior state composes the fresh name
`<slug-of-task-id>-r<round>-<first 6 uuid-hex chars>`, whose suffix is 6
lowercase hex characters whenever the uuid digest is lowercase hex. -/
theorem C3_round_state_reuse :
    (∀ (t : TaskRequest) (s : SettingsM) (env : EnvM) (rs : RoundState)
      (r : RoundResult), env.loadedState = some rs → rs.repo_name ≠ [] →
      processRound t s env = some r →
      r.persisted.repo_name = rs.repo_name) ∧
    (∀ (t1 t2 : TaskRequest) (s : SettingsM) (env1 env2 : EnvM)
      (r1 r2 : RoundResult), env1.loadedState = none → env2.login = env1.login →
      processRound t1 s env1 = some r1 →
      env2.loadedState = some r1.persisted →
      processRound t2 s env2 = some r2 →
      r2.persisted.repo_name = r1.persisted.repo_name ∧
      r2.persisted.owner = r1.persisted.owner ∧
      r2.callback.repo_url = r1.callback.repo_url) ∧
    (∀ (t : TaskRequest) (s : SettingsM) (env : EnvM) (r : RoundResult),
      env.loadedState = none → processRound t s env = some r →
      r.persisted.repo_name = slugify t.task 63 ++ pstr "-r" ++
        intToStr t.round ++ pstr "-" ++ env.uuidName.take 6) ∧
    (∀ env : EnvM, (∀ c ∈ env.uuidName, isLowerHexChar c = true) →
      6 ≤ env.uuidName.length →
      (env.uuidName.take 6).length = 6 ∧
      ∀ c ∈ env.uuidName.take 6, isLowerHexChar c = true) := by
  refine ⟨?_, ?_, ?_, ?_⟩
  · intro t s env rs r hst hne h
    rw [(processRound_fields h).1, publishStep_name]
    exact resolveRepoName_reuse t hst hne
  · intro t1 t2 s env1 env2 r1 r2 henv1 hlog h1 hst2 h2
    have hf1 := processRound_fields h1
    have hf2 := processRound_fields h2
    have hb : r1.persisted.repo_name = resolveRepoName t1 env1 := by
      rw [hf1.1, publishStep_name]
    have hne1 : r1.persisted.repo_name ≠ [] := by
      rw [hb, resolveRepoName_of_none t1 henv1]
      exact compose_repo_name_ne_nil t1 _
    have hrn : resolveRepoName t2 env2 = r1.persisted.repo_name :=
      resolveRepoName_reuse t2 hst2 hne1
    cases hgh : useGithub s with
    | true =>
      refine ⟨?_, ?_, ?_⟩
      · rw [hf2.1, publishStep_name, hrn]
      · rw [hf2.2.1, publishStep_owner_github _ _ _ _ hgh,
          hf1.2.1, publishStep_owner_github _ _ _ _ hgh, hlog]
      · rw [hf2.2.2, publishStep_url_github _ _ _ _ hgh,
          hf1.2.2, publishStep_url_github _ _ _ _ hgh, hlog, hrn, hb]
    | false =>
      have ho1 : r1.persisted.owner = orTruthy s.github_owner (pstr "example") := by
        rw [hf1.2.1, publishStep_owner_local _ _ _ _ hgh]
        unfold resolveOwner
        rw [show (useGithub s && !stateOwnerTruthy env1) = false from by
          rw [hgh]; rfl]
        simp only [Bool.false_eq_true, if_false]
        unfold resolveOwner0
        rw [henv1]
        rfl
      have ho1ne : r1.persisted.owner ≠ [] := by
        rw [ho1]
        exact orTruthy_ne_nil _ (by decide)
      refine ⟨?_, ?_, ?_⟩
      · rw [hf2.1, publishStep_name, hrn]
      · rw [hf2.2.1, publishStep_owner_local _ _ _ _ hgh]
        unfold resolveOwner
        rw [show (useGithub s && !stateOwnerTruthy env2) = false from by
          rw [hgh]; rfl]
        simp only [Bool.false_eq_true, if_false]
        unfold resolveOwner0
        rw [hst2]
        exact orTruthy_of_truthy ho1ne _
      · rw [hf2.2.2, publishStep_url_local _ _ _ _ hgh,
          hf1.2.2, publishStep_url_local _ _ _ _ hgh, hrn, hb]
  · intro t s env r hst h
    rw [(processRound_fields h).1, publishStep_name, resolveRepoName_of_none t hst]
    rfl
  · intro env hhex hlen
    constructor
    · rw [List.length_take]
      omega
    · intro c hc
      exact hhex c (List.take_subset _ _ hc)

/-- Claim C3, witness: the fresh-suffix conjunct applied to a concrete
lowercase-hex uuid digest, alongside a concrete reuse run — a dry-run round
loading stored state persists the stored repo name and owner again. -/
theorem C3_round_state_reuse_witness :
    (processRound ⟨pstr "a@b.c", pstr "s3cret", pstr "demo-task", 1, pstr "n1",
        pstr "Build it", [], pstr "https://eval.example/cb", []⟩
      ⟨none, none, none, pstr "main", true⟩
      ⟨some ⟨pstr "demo-task", 1, pstr "n1", pstr "repo-x", pstr "own",
          pstr "https://own.github.io/repo-x/", pstr "main", pstr "c", pstr "dry-run",
          pstr "t0"⟩, pstr "0a1b2c3d", pstr "c", pstr "log", true, none, [],
        pstr "sha", false, pstr "now", []⟩).map
      (fun r => (r.persisted.repo_name, r.persisted.owner)) =
      some (pstr "repo-x", pstr "own") ∧
    ((pstr "0a1b2c3d").take 6).length = 6 ∧
    (∀ c ∈ (pstr "0a1b2c3d").take 6, isLowerHexChar c = true) :=
  ⟨rfl, C3_round_state_reuse.2.2.2 ⟨none, pstr "0a1b2c3d", pstr "c", pstr "log",
    true, none, [], pstr "sha", false, pstr "now", []⟩ (by decide) (by decide)⟩
